import Mathlib

/-!
Verification of the version-resolution, asset-matching, name-derivation and
archive-extraction core of the jkl tool-version manager, via a shallow
embedding of the Go source into Lean.

Go strings are modelled as Lean `String`; byte-level file content is
modelled as `List Nat` (one entry per byte).  Case folding is modelled at
the ASCII level, which is exact for all inputs the program compares
(release tags, asset names, OS and architecture tokens).

Layout: all definitions first, then all theorems.
-/

set_option maxHeartbeats 1600000
set_option maxRecDepth 8192

namespace Jkl

/-! ## Definitions -/

/-! ### Go string primitives -/

/-- ASCII lower-casing of one character; models the effect of Go
`strings.ToLower` on ASCII text. -/
def lowerChar (c : Char) : Char :=
  if 65 ≤ c.toNat && c.toNat ≤ 90 then Char.ofNat (c.toNat + 32) else c

/-- Go `strings.ToLower`, modelled for ASCII text. -/
def lowerStr (s : String) : String := ⟨s.data.map lowerChar⟩

/-- Go `strings.EqualFold`, modelled as ASCII case folding. -/
def equalFold (a b : String) : Bool := lowerStr a == lowerStr b

/-- Go `strings.HasPrefix` on the underlying characters. -/
def strHasPfx (s p : String) : Bool := p.data.isPrefixOf s.data

/-- Go `strings.HasSuffix` on the underlying characters. -/
def strHasSfx (s p : String) : Bool := p.data.reverse.isPrefixOf s.data.reverse

/-- Helper for `strIdx`: index of the first occurrence of `sub` in the
list, counting from `i`. -/
def strIdxAux (sub : List Char) : List Char → Nat → Option Nat
  | [], i => if sub.isEmpty then some i else none
  | c :: rest, i =>
    if sub.isPrefixOf (c :: rest) then some i
    else strIdxAux sub rest (i + 1)

/-- Go `strings.Index`: position of the first occurrence of `sub` in `s`,
or `none` where Go returns -1. -/
def strIdx (s sub : String) : Option Nat := strIdxAux sub.data s.data 0

/-- Go `strings.Contains`. -/
def strContains (s sub : String) : Bool := (strIdx s sub).isSome

/-- Helper for `strReplaceAll`: replace every occurrence of `o :: os`
by `new`, scanning left to right without overlap, exactly as Go
`strings.Replace(s, old, new, -1)` does for a non-empty `old`.  The
first argument is fuel, instantiated with the list length (each step
consumes at least one character, so the fuel is never exhausted). -/
def replaceChars (o : Char) (os new : List Char) : Nat → List Char → List Char
  | 0, l => l
  | _ + 1, [] => []
  | fuel + 1, c :: rest =>
    if (o :: os).isPrefixOf (c :: rest) then
      new ++ replaceChars o os new fuel (rest.drop os.length)
    else
      c :: replaceChars o os new fuel rest

/-- Go `strings.Replace(s, old, new, -1)`.  The program only calls this
with a non-empty `old`; an empty `old` is mapped to the identity. -/
def strReplaceAll (s old new : String) : String :=
  match old.data with
  | [] => s
  | o :: os => ⟨replaceChars o os new.data s.data.length s.data⟩

/-- Lexicographic comparison of character lists by code point, which for
UTF-8 text coincides with Go's byte-wise string order. -/
def clLe : List Char → List Char → Bool
  | [], _ => true
  | _ :: _, [] => false
  | x :: xs, y :: ys =>
    if x.toNat < y.toNat then true
    else if y.toNat < x.toNat then false
    else clLe xs ys

/-- Go's string comparison `a <= b` (byte-wise lexicographic order). -/
def strLe (a b : String) : Bool := clLe a.data b.data

/-- Three-way lexicographic comparison of character lists; Go's `<`/`>`
on strings. -/
def clCmp : List Char → List Char → Ordering
  | [], [] => .eq
  | [], _ :: _ => .lt
  | _ :: _, [] => .gt
  | x :: xs, y :: ys =>
    if x.toNat < y.toNat then .lt
    else if y.toNat < x.toNat then .gt
    else clCmp xs ys

/-- Three-way comparison of Go strings. -/
def strCmp (a b : String) : Ordering := clCmp a.data b.data

/-! ### A generic insertion sort modelling Go's `sort` package

Go's `sort.Strings` and `sort.Sort` guarantee only that the result is a
permutation of the input ordered under the supplied comparison; we model
them with an insertion sort and prove exactly those order-agnostic
properties. -/

/-- Insert `a` into `l` before the first element `b` with `le a b`. -/
def ordInsert (le : α → α → Bool) (a : α) : List α → List α
  | [] => [a]
  | b :: l => if le a b then a :: b :: l else b :: ordInsert le a l

/-- Insertion sort by the comparison `le`. -/
def sortBy (le : α → α → Bool) : List α → List α
  | [] => []
  | a :: l => ordInsert le a (sortBy le l)

/-- Reverse scan: the first satisfying element of the reversed list.
Models a Go loop `for i := len(l)-1; i >= 0; i--` that returns the first
element satisfying `p`. -/
def revFind (p : α → Bool) (l : List α) : Option α := l.reverse.find? p

/-! ### Model of the external dependency github.com/hashicorp/go-version

jkl's `sortVersions` (src/util.go) delegates version parsing and
comparison to the library github.com/hashicorp/go-version, which is not
part of this repository.  Its `NewVersion` grammar (optional "v", dotted
decimal segments padded to at least three, optional prerelease and
build-metadata suffixes, segments bounded by int64) and its `Compare`,
`comparePrereleases` and `comparePart` functions are modelled below. -/

/-- The character class `[0-9A-Za-z-~]` of prerelease/metadata parts. -/
def isPreChar (c : Char) : Bool := c.isDigit || c.isAlpha || c == '-' || c == '~'

/-- Value of a decimal numeral. -/
def digitsToNat (l : List Char) : Nat :=
  l.foldl (fun acc c => acc * 10 + (c.toNat - 48)) 0

/-- Consume further `'.' digit+` groups of the version core.  The first
argument is fuel, instantiated with the list length (each step consumes
at least two characters, so the fuel is never exhausted). -/
def segsLoopF : Nat → List Char → List (List Char) × List Char
  | 0, l => ([], l)
  | fuel + 1, l =>
    match l with
    | '.' :: rest =>
      let d := rest.takeWhile Char.isDigit
      if d.isEmpty then ([], '.' :: rest)
      else
        let p := segsLoopF fuel (rest.dropWhile Char.isDigit)
        (d :: p.1, p.2)
    | _ => ([], l)

/-- Consume further `'.' digit+` groups of the version core. -/
def segsLoop (l : List Char) : List (List Char) × List Char :=
  segsLoopF l.length l

/-- Consume further `'.' part` groups of a prerelease/metadata suffix,
with fuel as in `segsLoopF`. -/
def dotPartsLoopF : Nat → List Char → List (List Char) × List Char
  | 0, l => ([], l)
  | fuel + 1, l =>
    match l with
    | '.' :: rest =>
      let d := rest.takeWhile isPreChar
      if d.isEmpty then ([], '.' :: rest)
      else
        let p := dotPartsLoopF fuel (rest.dropWhile isPreChar)
        (d :: p.1, p.2)
    | _ => ([], l)

/-- Parse `part ('.' part)*` where a part is a non-empty run of
prerelease characters; returns the parts and the unconsumed rest. -/
def dotParts (l : List Char) : Option (List (List Char) × List Char) :=
  let p1 := l.takeWhile isPreChar
  if p1.isEmpty then none
  else
    let q := dotPartsLoopF l.length (l.dropWhile isPreChar)
    some (p1 :: q.1, q.2)

/-- Join dotted parts back into one string. -/
def joinDots (parts : List (List Char)) : String :=
  ⟨List.intercalate ['.'] parts⟩

/-- The prerelease alternatives of the go-version regex: either `-`
followed by a digit-led dotted group, or an optional `-` followed by a
letter/dash/tilde-led dotted group.  Returns the prerelease text (without
the consumed leading dash) and the rest, or `none` when the input can
neither start a prerelease nor be left for the metadata/end of input. -/
def parsePre (l : List Char) : Option (String × List Char) :=
  match l with
  | '-' :: rest =>
    match dotParts rest with
    | some (parts, r) => some (joinDots parts, r)
    | none =>
      match dotParts ('-' :: rest) with
      | some (parts, r) => some (joinDots parts, r)
      | none => none
  | _ =>
    match dotParts l with
    | some (parts, r) =>
      match parts with
      | (c :: _) :: _ =>
        if c.isAlpha || c == '-' || c == '~' then some (joinDots parts, r) else none
      | _ => none
    | none => some ("", l)

/-- The optional `+metadata` suffix of the go-version regex. -/
def parseMeta (l : List Char) : Option (String × List Char) :=
  match l with
  | '+' :: rest =>
    match dotParts rest with
    | some (parts, r) => some (joinDots parts, r)
    | none => none
  | _ => some ("", l)

/-- A parsed go-version value.  `original` is the exact input string, as
stored by the library and recovered by `Original()`. -/
structure HVersion where
  segments : List Nat
  pre : String
  metadata : String
  original : String

/-- go-version `NewVersion`: parse a version string, or fail. -/
def newVersion (s : String) : Option HVersion :=
  let l := match s.data with
    | 'v' :: r => r
    | r => r
  let d1 := l.takeWhile Char.isDigit
  if d1.isEmpty then none
  else
    let p := segsLoop (l.dropWhile Char.isDigit)
    match parsePre p.2 with
    | none => none
    | some (pre, rest2) =>
      match parseMeta rest2 with
      | none => none
      | some (meta, rest3) =>
        if rest3.isEmpty then
          let vals := (d1 :: p.1).map digitsToNat
          if vals.all (fun v => v < 2 ^ 63) then
            some { segments := vals ++ List.replicate (3 - vals.length) 0
                 , pre := pre, metadata := meta, original := s }
          else none
        else none

/-- Go `strconv.ParseInt(s, 10, 64)` as an optional integer. -/
def parseIntGo (s : String) : Option Int :=
  match s.data with
  | '+' :: ds =>
    if ds.isEmpty || !ds.all Char.isDigit then none
    else if digitsToNat ds ≤ 2 ^ 63 - 1 then some (Int.ofNat (digitsToNat ds)) else none
  | '-' :: ds =>
    if ds.isEmpty || !ds.all Char.isDigit then none
    else if digitsToNat ds ≤ 2 ^ 63 then some (-(Int.ofNat (digitsToNat ds))) else none
  | ds =>
    if ds.isEmpty || !ds.all Char.isDigit then none
    else if digitsToNat ds ≤ 2 ^ 63 - 1 then some (Int.ofNat (digitsToNat ds)) else none

/-- go-version `comparePart`: compare one dotted part of two prerelease
suffixes, numerically when both sides parse as integers. -/
def partCompare (a b : String) : Ordering :=
  if a = b then .eq
  else
    let aN := parseIntGo a
    let bN := parseIntGo b
    if a = "" then (if bN.isSome then .lt else .gt)
    else if b = "" then (if aN.isSome then .gt else .lt)
    else
      match aN, bN with
      | some _, none => .lt
      | none, some _ => .gt
      | some x, some y =>
        if x < y then .lt else if y < x then .gt else strCmp a b
      | none, none => strCmp a b

/-- Zip two lists, padding the shorter one with empty strings, as the
index loop of `comparePrereleases` does. -/
def zipPadStr : List String → List String → List (String × String)
  | [], ys => ys.map (fun y => ("", y))
  | x :: xs, [] => (x, "") :: zipPadStr xs []
  | x :: xs, y :: ys => (x, y) :: zipPadStr xs ys

/-- First non-`eq` outcome of a sequence of comparisons. -/
def firstNonEq : List Ordering → Ordering
  | [] => .eq
  | o :: rest => if o = .eq then firstNonEq rest else o

/-- go-version `comparePrereleases`. -/
def comparePrereleases (a b : String) : Ordering :=
  if a = b then .eq
  else
    firstNonEq ((zipPadStr (a.splitOn ".") (b.splitOn ".")).map
      (fun p => partCompare p.1 p.2))

/-- go-version segment comparison: the jagged loop of `Compare`, which
treats a shorter segment list as padded with zeros (a longer remainder
that is not all zeros decides the comparison). -/
def segCmp : List Nat → List Nat → Ordering
  | [], ys => if ys.all (fun y => y == 0) then .eq else .lt
  | x :: xs, [] => if x ≠ 0 then .gt else segCmp xs []
  | x :: xs, y :: ys =>
    if x < y then .lt else if y < x then .gt else segCmp xs ys

/-- go-version `Compare`: on equal stored segments compare prereleases
(an empty prerelease is newest); otherwise compare segments. -/
def versionCompare (x y : HVersion) : Ordering :=
  if x.segments = y.segments then
    (if x.pre = y.pre then .eq
     else if x.pre = "" then .gt
     else if y.pre = "" then .lt
     else comparePrereleases x.pre y.pre)
  else segCmp x.segments y.segments

/-- The comparison under which `sortVersions` orders parsed versions:
`a` at or below `b` (go-version `LessThan` or equal). -/
def versionLe (a b : String) : Bool :=
  match newVersion a, newVersion b with
  | some va, some vb => decide (versionCompare va vb ≠ Ordering.gt)
  | _, _ => true

/-- The empty-string substitution done by `sortVersions` before parsing:
an empty version becomes "0.0.0". -/
def substEmpty (versions : List String) : List String :=
  versions.map (fun v => if v = "" then "0.0.0" else v)

/-- jkl `sortVersions` (src/util.go): replace empty strings by "0.0.0";
if every resulting string parses under go-version, sort by the version
comparison and return the parsed strings (`Original()` of each parsed
value, i.e. the substituted strings); if any fails to parse, sort the
original strings lexicographically instead.  Go sorts the slice in
place; the returned list models the slice's final contents. -/
def sortVersions (versions : List String) : List String :=
  let subst := substEmpty versions
  if subst.all (fun v => (newVersion v).isSome) then
    sortBy versionLe subst
  else
    sortBy strLe versions

/-- A version string that parses under go-version with an empty
prerelease component (a plain dotted numeric version, possibly with
build metadata). -/
def numericVersion (s : String) : Bool :=
  match newVersion s with
  | some v => v.pre == ""
  | none => false

/-! ### Github release matching (src/github.go) -/

/-- One decoded entry of the Github releases response. -/
structure GithubRelease where
  ReleaseName : String
  TagName : String
  PreRelease : Bool
deriving DecidableEq

/-- src/github.go `GithubReleases`. -/
abbrev GithubReleases := List GithubRelease

/-- src/github.go `tagExists`: first release whose tag equals the wanted
tag case-insensitively. -/
def tagExists (g : GithubReleases) (wantTag : String) : String × Bool :=
  match g.find? (fun r => equalFold r.TagName wantTag) with
  | some r => (r.TagName, true)
  | none => ("", false)

/-- src/github.go `tagForReleaseName`: first release whose display name
equals the wanted name case-insensitively. -/
def tagForReleaseName (g : GithubReleases) (wantName : String) : String × Bool :=
  match g.find? (fun r => equalFold r.ReleaseName wantName) with
  | some r => (r.TagName, true)
  | none => ("", false)

/-- src/util.go `toggleVPrefix`: drop a leading `v`/`V`, or add a `v`. -/
def toggleVPrefix (s : String) : String :=
  if strHasPfx (lowerStr s) "v" then ⟨s.data.drop 1⟩ else ⟨'v' :: s.data⟩

/-- The character class `[a-zA-Z-_]` of the tag-prefix-stripping regex. -/
def isStripRunChar (c : Char) : Bool := c.isAlpha || c == '-' || c == '_'

/-- Match `\d+\.` at the start of the list. -/
def digitsThenDot (l : List Char) : Bool :=
  let d := l.takeWhile Char.isDigit
  if d.isEmpty then false
  else
    match l.dropWhile Char.isDigit with
    | '.' :: _ => true
    | _ => false

/-- Match `v?\d+\.` at the start of the list (the optional `v` is
consumed greedily; backtracking cannot help since `v` is not a digit). -/
def vDigitsDot : List Char → Bool
  | 'v' :: rest => digitsThenDot rest
  | l => digitsThenDot l

/-- Greedy search for the split point of `^[a-zA-Z-_]+(v?\d+\..*)`:
try the longest admissible prefix first, as the greedy `+` does. -/
def findStripSplit : Nat → List Char → Option (List Char)
  | 0, _ => none
  | j + 1, l =>
    if vDigitsDot (l.drop (j + 1)) then
      some ((l.drop (j + 1)).takeWhile (fun c => c ≠ '\n'))
    else findStripSplit j l

/-- Go `stripPrefixRE.FindStringSubmatch` for the anchored pattern
`^[a-zA-Z-_]+(v?\d+\..*)`: the captured group (which, via `.*` without
the s-flag, extends to the first newline or the end), or `none` when the
pattern does not match. -/
def stripTagMatch (l : List Char) : Option (List Char) :=
  let run := l.takeWhile isStripRunChar
  if run.isEmpty then none else findStripSplit run.length l

/-- The prefix test of `MatchTagFromPartialVersion`: the lower-cased tag
starts with the lower-cased partial version, or with "v" plus it. -/
def partialMatchPred (pv t : String) : Bool :=
  strHasPfx (lowerStr t) (lowerStr pv) || strHasPfx (lowerStr t) ("v" ++ lowerStr pv)

/-- The prefix test applied after stripping extraneous leading text from
the (already lower-cased) tag. -/
def strippedMatchPred (pv t : String) : Bool :=
  match stripTagMatch (lowerStr t).data with
  | some stripped =>
    strHasPfx ⟨stripped⟩ (lowerStr pv) || strHasPfx ⟨stripped⟩ ("v" ++ lowerStr pv)
  | none => false

/-- The tag slice built by `MatchTagFromPartialVersion`: one slot per
release, holding the empty string for a prerelease-flagged release and
the tag name otherwise. -/
def partialTags (g : GithubReleases) : List String :=
  g.map (fun r => if r.PreRelease then "" else r.TagName)

/-- src/github.go `MatchTagFromPartialVersion`: build a tag slice with
an empty string in the slot of each prerelease-flagged release, sort it
with `sort.Strings` (plain lexicographic order), scan backwards for a
tag matching the partial version directly, then scan backwards again
matching after stripping extraneous leading text. -/
def MatchTagFromPartialVersion (g : GithubReleases) (pv : String) : String × Bool :=
  match revFind (partialMatchPred pv) (sortBy strLe (partialTags g)) with
  | some t => (t, true)
  | none =>
    match revFind (strippedMatchPred pv) (sortBy strLe (partialTags g)) with
    | some t => (t, true)
    | none => ("", false)

/-- src/github.go `findTagForVersion`.  The HTTP call for the
empty/"latest" path is passed in as `latest` (its result is outside this
core); `releases` is the decoded releases response used by all other
paths. -/
def findTagForVersion (latest : Except String String) (releases : GithubReleases)
    (version : String) : Except String (String × Bool) :=
  if version = "" ∨ equalFold version "latest" = true then
    match latest with
    | .error e => .error e
    | .ok tag => .ok (tag, true)
  else if releases.length = 0 then .error "there are no releases"
  else
    let r1 := tagExists releases version
    if r1.2 then .ok (r1.1, true)
    else
      let r2 := tagExists releases (toggleVPrefix version)
      if r2.2 then .ok (r2.1, true)
      else
        let r3 := tagForReleaseName releases version
        if r3.2 then .ok (r3.1, true)
        else
          let r4 := tagForReleaseName releases (toggleVPrefix version)
          if r4.2 then .ok (r4.1, true)
          else
            let r5 := MatchTagFromPartialVersion releases version
            if r5.2 then .ok (r5.1, true)
            else .ok ("", false)

/-- A found tag as an optional value. -/
def foundTag (p : String × Bool) : Option String :=
  if p.2 then some p.1 else none

/-- The resolution cascade as the specification words it: try each
strategy in order, return the first success. -/
def specResolve (g : GithubReleases) (v : String) : Option String :=
  (foundTag (tagExists g v)).orElse (fun _ =>
  (foundTag (tagExists g (toggleVPrefix v))).orElse (fun _ =>
  (foundTag (tagForReleaseName g v)).orElse (fun _ =>
  (foundTag (tagForReleaseName g (toggleVPrefix v))).orElse (fun _ =>
  foundTag (MatchTagFromPartialVersion g v)))))

/-- The example release set of the specification and the repository's
tests, with 1.0.3-rc1 carrying the prerelease flag as in the test data. -/
def exampleReleases : GithubReleases :=
  [⟨"0.8", "0.8", false⟩, ⟨"0.9", "0.9", false⟩, ⟨"1.0.0", "1.0.0", false⟩,
   ⟨"1.0.2", "1.0.2", false⟩, ⟨"1.0.3-rc1", "1.0.3-rc1", true⟩,
   ⟨"2.0.1", "2.0.1", false⟩, ⟨"3.0.0", "3.0.0", false⟩, ⟨"3.0.1", "3.0.1", false⟩,
   ⟨"3.0.2", "3.0.2", false⟩, ⟨"3.0.3", "3.0.3", false⟩]

/-! ### Asset matching (src/github.go `MatchAssetByOsAndArch`,
src/util.go `stringContainsOneOf`, src/unnamed/part_011
`MatchBuildByOsAndArch`) -/

/-- One Github release asset. -/
structure GithubAsset where
  Name : String
  URL : String
deriving DecidableEq

/-- One structured Hashicorp build record. -/
structure HashicorpBuild where
  Arch : String
  OS : String
  URL : String
deriving DecidableEq

/-- The backward scan of src/util.go `stringContainsOneOf`: Go iterates
the substring list from the LAST entry to the first and returns, for the
first lower-case occurrence found, the slice of `s` (in its original
case) at the matched index. -/
def containsScan (s LCS : String) : List String → String × Bool
  | [] => ("", false)
  | sub :: rest =>
    match strIdx LCS (lowerStr sub) with
    | some idx => (⟨(s.data.drop idx).take sub.data.length⟩, true)
    | none => containsScan s LCS rest

/-- src/util.go `stringContainsOneOf` (the function called
`stringContainsOneOfLowerCase` at its use in `MatchAssetByOsAndArch`;
the claim cites this src/util.go definition as the deciding code):
report the first substring of the list - scanned BACKWARDS - contained
in `s` under lower-casing, returning the original-case slice of `s`. -/
def stringContainsOneOf (s firstSubstr : String) (additionalSubstrs : List String) :
    String × Bool :=
  containsScan s (lowerStr s) ((firstSubstr :: additionalSubstrs).reverse)

/-- src/util.go `stringEqualFoldOneOf`. -/
def stringEqualFoldOneOf (s firstMatchstr : String) (additionalMatchstrs : List String) :
    Bool :=
  (firstMatchstr :: additionalMatchstrs).any (fun m => equalFold s m)

/-- src/util.go `getAliasesForArchitecture`: only "amd64" has aliases;
the map comment says the `universal` alias should always be last in the
list. -/
def getAliasesForArchitecture (arch : String) : List String :=
  if lowerStr arch == "amd64" then ["x86_64", "64bit", "64-bit", "universal"] else []

/-- src/util.go `getAliasesForOperatingSystem`: only "darwin" has
aliases. -/
def getAliasesForOperatingSystem (OS : String) : List String :=
  if lowerStr OS == "darwin" then ["macos", "osx", "apple-darwin"] else []

/-- The asset loop of src/github.go `MatchAssetByOsAndArch`: first asset
whose name contains both an OS token and an architecture token, with the
linux64 combination special case. -/
def matchAssetLoop (OS arch : String) : List GithubAsset → Option (GithubAsset × String × String)
  | [] => none
  | asset :: rest =>
    let osRes := stringContainsOneOf asset.Name OS (getAliasesForOperatingSystem OS)
    let archRes := stringContainsOneOf asset.Name arch (getAliasesForArchitecture arch)
    if osRes.2 && archRes.2 then some (asset, osRes.1, archRes.1)
    else if equalFold OS "linux" && equalFold arch "amd64" &&
        strContains (lowerStr asset.Name) "linux64" then
      some (asset, "linux64", "linux64")
    else matchAssetLoop OS arch rest

/-- src/github.go `MatchAssetByOsAndArch` with explicit recursion depth;
the Go function recurses at most once (darwin/arm64 retried as amd64),
so depth 2 is exact. -/
def MatchAssetByOsAndArchF : Nat → List GithubAsset → String → String →
    GithubAsset × String × String × Bool
  | 0, _, _, _ => (⟨"", ""⟩, "", "", false)
  | fuel + 1, assets, OS, arch =>
    match matchAssetLoop OS arch assets with
    | some (a, mOS, mArch) => (a, mOS, mArch, true)
    | none =>
      if equalFold OS "darwin" && equalFold arch "arm64" then
        MatchAssetByOsAndArchF fuel assets OS "amd64"
      else (⟨"", ""⟩, "", "", false)

/-- src/github.go `MatchAssetByOsAndArch`. -/
def MatchAssetByOsAndArch (assets : List GithubAsset) (OS arch : String) :
    GithubAsset × String × String × Bool :=
  MatchAssetByOsAndArchF 2 assets OS arch

/-- The build loop of `MatchBuildByOsAndArch` (src/unnamed/part_011):
first build whose OS and architecture fields equal the target or one of
its aliases case-insensitively. -/
def matchBuildLoop (LCOS LCArch : String) : List HashicorpBuild → Option HashicorpBuild
  | [] => none
  | b :: rest =>
    if stringEqualFoldOneOf (lowerStr b.OS) LCOS (getAliasesForOperatingSystem LCOS) &&
        stringEqualFoldOneOf (lowerStr b.Arch) LCArch (getAliasesForArchitecture LCArch) then
      some b
    else matchBuildLoop LCOS LCArch rest

/-- `MatchBuildByOsAndArch` with explicit recursion depth, as for the
asset matcher. -/
def MatchBuildByOsAndArchF : Nat → List HashicorpBuild → String → String →
    HashicorpBuild × Bool
  | 0, _, _, _ => (⟨"", "", ""⟩, false)
  | fuel + 1, builds, OS, arch =>
    match matchBuildLoop (lowerStr OS) (lowerStr arch) builds with
    | some b => (b, true)
    | none =>
      if lowerStr OS == "darwin" && lowerStr arch == "arm64" then
        MatchBuildByOsAndArchF fuel builds OS "amd64"
      else (⟨"", "", ""⟩, false)

/-- src/unnamed/part_011 `MatchBuildByOsAndArch`. -/
def MatchBuildByOsAndArch (builds : List HashicorpBuild) (OS arch : String) :
    HashicorpBuild × Bool :=
  MatchBuildByOsAndArchF 2 builds OS arch

/-! ### Base-name derivation (src/github.go
`NameWithoutVersionAndComponents`, src/unnamed/part_003 `GetBaseName`) -/

/-- Does the list start with a digit? -/
def startsWithDigit : List Char → Bool
  | c :: _ => c.isDigit
  | [] => false

/-- The rest-of-pattern test of `versionRE` = `(.+?)[-_]?v?\d+.*` at a
split point: an optional dash/underscore, an optional lower-case `v`,
then at least one digit. -/
def sepVDigit (l : List Char) : Bool :=
  startsWithDigit l ||
  (match l with
   | 'v' :: u => startsWithDigit u
   | _ => false) ||
  (match l with
   | c :: u =>
     (c == '-' || c == '_') &&
       (startsWithDigit u ||
        (match u with
         | 'v' :: w => startsWithDigit w
         | _ => false))
   | [] => false)

/-- The lazy group `(.+?)` of `versionRE`: smallest non-empty prefix
(not crossing a newline, since `.` has no s-flag) after which the rest
of the pattern matches.  `acc` is the prefix consumed so far. -/
def vsnMinK (acc : List Char) : List Char → Option (List Char)
  | [] => none
  | c :: rest =>
    if c == '\n' then none
    else if sepVDigit rest then some (acc ++ [c])
    else vsnMinK (acc ++ [c]) rest

/-- Go `versionRE.FindStringSubmatch` group 1: leftmost match start,
then the lazy smallest group. -/
def vsnSearch : List Char → Option (List Char)
  | [] => none
  | c :: rest =>
    match vsnMinK [] (c :: rest) with
    | some g => some g
    | none => vsnSearch rest

/-- Group 1 of `versionRE` applied to a string. -/
def versionREGroup (s : String) : Option String :=
  (vsnSearch s.data).map (fun g => ⟨g⟩)

/-- The component-stripping loop of `NameWithoutVersionAndComponents`:
each component is removed in its `-component` and `_component` forms. -/
def stripTokens (assetName : String) (components : List String) : String :=
  components.foldl
    (fun n component =>
      strReplaceAll (strReplaceAll n ("-" ++ component) "") ("_" ++ component) "")
    assetName

/-- src/github.go `NameWithoutVersionAndComponents`: strip the
components, then return the version-regex group when it matches and the
stripped name unchanged otherwise (the Go condition
`matches != nil || len(matches) >= 2` is equivalent to `matches != nil`). -/
def NameWithoutVersionAndComponents (assetName : String) (components : List String) :
    String :=
  match versionREGroup (stripTokens assetName components) with
  | some base => base
  | none => stripTokens assetName components

/-- The rest-of-pattern test of `assetBaseNameRE` = `(?is)^(.+?)[-_]v?\d+.*`:
a MANDATORY dash/underscore, an optional `v` (case-insensitive under the
i-flag), then at least one digit. -/
def sepVDigitCI (l : List Char) : Bool :=
  match l with
  | c :: u =>
    (c == '-' || c == '_') &&
      (startsWithDigit u ||
       (match u with
        | w :: ws => (w == 'v' || w == 'V') && startsWithDigit ws
        | [] => false))
  | [] => false

/-- The lazy group of `assetBaseNameRE` (anchored at the start; `.`
matches newlines under the s-flag). -/
def baseMinK (acc : List Char) : List Char → Option (List Char)
  | [] => none
  | c :: rest =>
    if sepVDigitCI rest then some (acc ++ [c])
    else baseMinK (acc ++ [c]) rest

/-- First field of Go `strings.FieldsFunc` splitting on `-` and `_`
(empty fields dropped); `none` when there are no fields. -/
def firstFieldDU (l : List Char) : Option (List Char) :=
  match l.dropWhile (fun c => c == '-' || c == '_') with
  | [] => none
  | c :: rest => some (c :: rest.takeWhile (fun c => !(c == '-' || c == '_')))

/-- src/unnamed/part_003 `GetBaseName`: the asset name up to a trailing
version suffix; if the version pattern does not match, fall back to the
first `-`/`_`-separated field, or the whole name when there is none. -/
def GetBaseName (assetName : String) : String :=
  match baseMinK [] assetName.data with
  | some g => ⟨g⟩
  | none =>
    match firstFieldDU assetName.data with
    | some f => ⟨f⟩
    | none => assetName

/-! ### Archive extraction (src/archives.go)

File content is a list of byte values.  The filesystem effect of the
extractor is modelled by the list of (path, content) pairs written; an
error carries the writes made before it (nothing is rolled back).  The
byte-level decoders of the external libraries (compress/gzip,
compress/bzip2, archive/tar, archive/zip, h2non/filetype) are modelled
below; DEFLATE is modelled for stored (uncompressed) blocks and bzip2
for the empty stream - the header, magic and truncation behaviour the
theorems rely on agrees with the libraries, while Huffman-compressed
payloads are outside the model. -/

/-- One byte of the sniff buffer of `NewFileTypeReader`: a single read
of up to 512 bytes into a zero-initialised 512-byte buffer, passed whole
to `filetype.Match`, so a position beyond the content's first 512 bytes
reads as zero.  Every offset the matchers inspect is below 512, so the
buffer's byte at `i` is the content's byte at `i`, or zero past the
end. -/
def sniffAt (content : List Nat) (i : Nat) : Nat := content.getD i 0

/-- h2non/filetype gzip matcher (the buffer-length guard of the library
is always true on the 512-byte buffer). -/
def isGzMagic (c : List Nat) : Bool :=
  sniffAt c 0 == 0x1F && sniffAt c 1 == 0x8B && sniffAt c 2 == 8

/-- h2non/filetype bzip2 matcher. -/
def isBz2Magic (c : List Nat) : Bool :=
  sniffAt c 0 == 0x42 && sniffAt c 1 == 0x5A && sniffAt c 2 == 0x68

/-- h2non/filetype tar matcher ("ustar" at offset 257). -/
def isTarMagic (c : List Nat) : Bool :=
  sniffAt c 257 == 0x75 && sniffAt c 258 == 0x73 && sniffAt c 259 == 0x74 &&
    sniffAt c 260 == 0x61 && sniffAt c 261 == 0x72

/-- h2non/filetype zip matcher. -/
def isZipMagic (c : List Nat) : Bool :=
  sniffAt c 0 == 0x50 && sniffAt c 1 == 0x4B &&
    (sniffAt c 2 == 0x3 || sniffAt c 2 == 0x5 || sniffAt c 2 == 0x7) &&
    (sniffAt c 3 == 0x4 || sniffAt c 3 == 0x6 || sniffAt c 3 == 0x8)

/-- `NewFileTypeReader`'s classification: an empty file reads EOF and is
"unknown"; otherwise the buffer is matched.  Types other than the four
the extractor dispatches on are collapsed to "unknown" (in Go they carry
their own extension; all reach the same default case). -/
def fileTypeOf (content : List Nat) : String :=
  if content.isEmpty then "unknown"
  else if isGzMagic content then "gz"
  else if isBz2Magic content then "bz2"
  else if isZipMagic content then "zip"
  else if isTarMagic content then "tar"
  else "unknown"

/-- Last path component (simplified `filepath.Base` for ordinary
slash-separated paths). -/
def baseName (path : String) : String :=
  ⟨(path.data.reverse.takeWhile (fun c => c ≠ '/')).reverse⟩

/-- Directory part (simplified `filepath.Dir` for ordinary
slash-separated paths). -/
def dirName (path : String) : String :=
  match path.data.reverse.dropWhile (fun c => c ≠ '/') with
  | _ :: more => ⟨more.reverse⟩
  | [] => "."

/-- Simplified `filepath.Join` of a directory and a file name. -/
def joinPath (d f : String) : String := d ++ "/" ++ f

/-- Go `strings.TrimSuffix`. -/
def strTrimSfx (s sfx : String) : String :=
  if strHasSfx s sfx then ⟨s.data.take (s.data.length - sfx.data.length)⟩ else s

/-- Bytes of an ASCII string. -/
def strBytes (s : String) : List Nat := s.data.map Char.toNat

/-- A byte list as a string (one character per byte). -/
def bytesToStr (l : List Nat) : String := ⟨l.map (fun b => Char.ofNat b)⟩

/-- Split a byte list at the first NUL, as the gzip header name/comment
fields are read; `none` when no NUL is present (truncated header). -/
def nulTerm (l : List Nat) : Option (List Nat × List Nat) :=
  match l.dropWhile (fun b => b ≠ 0) with
  | _ :: rest => some (l.takeWhile (fun b => b ≠ 0), rest)
  | [] => none

/-- One step of the bitwise CRC-32 (IEEE, reflected). -/
def crc32Update (crc b : Nat) : Nat :=
  (List.range 8).foldl
    (fun c _ => if c % 2 == 1 then (c / 2) ^^^ 0xEDB88320 else c / 2)
    (crc ^^^ b)

/-- CRC-32 (IEEE) of a byte list, as Go `hash/crc32` computes it. -/
def crc32 (data : List Nat) : Nat :=
  0xFFFFFFFF ^^^ data.foldl crc32Update 0xFFFFFFFF

/-- DEFLATE decoding for stored (BTYPE 0) blocks: returns the payload
and the bytes after the stream.  Compressed block types are outside the
model; fuel is the byte count (each block consumes at least five
bytes). -/
def inflateStored : Nat → List Nat → List Nat → Except String (List Nat × List Nat)
  | 0, _, _ => .error "flate: fuel exhausted"
  | fuel + 1, bytes, acc =>
    match bytes with
    | [] => .error "flate: unexpected EOF"
    | b :: rest =>
      if (b / 2) % 4 == 0 then
        match rest with
        | l0 :: l1 :: n0 :: n1 :: rest2 =>
          if l0 + n0 == 255 && l1 + n1 == 255 then
            if decide (rest2.length < l0 + 256 * l1) then .error "flate: unexpected EOF"
            else
              let dat := rest2.take (l0 + 256 * l1)
              let rest3 := rest2.drop (l0 + 256 * l1)
              if b % 2 == 1 then .ok (acc ++ dat, rest3)
              else inflateStored fuel rest3 (acc ++ dat)
          else .error "flate: corrupt input"
        | _ => .error "flate: unexpected EOF"
      else .error "flate: compressed block outside model"

/-- Skip the optional FEXTRA field of a gzip header. -/
def gzSkipExtra (flg : Nat) (l : List Nat) : Option (List Nat) :=
  if flg / 4 % 2 == 1 then
    match l with
    | x0 :: x1 :: rest =>
      if decide (rest.length < x0 + 256 * x1) then none
      else some (rest.drop (x0 + 256 * x1))
    | _ => none
  else some l

/-- Read the optional FNAME field of a gzip header. -/
def gzName (flg : Nat) (l : List Nat) : Option (String × List Nat) :=
  if flg / 8 % 2 == 1 then (nulTerm l).map (fun p => (bytesToStr p.1, p.2))
  else some ("", l)

/-- Skip the optional FCOMMENT field of a gzip header. -/
def gzSkipComment (flg : Nat) (l : List Nat) : Option (List Nat) :=
  if flg / 16 % 2 == 1 then (nulTerm l).map (fun p => p.2) else some l

/-- Skip the optional FHCRC field of a gzip header (the header checksum
itself is not modelled). -/
def gzSkipHcrc (flg : Nat) (l : List Nat) : Option (List Nat) :=
  if flg / 2 % 2 == 1 then
    match l with
    | _ :: _ :: rest => some rest
    | _ => none
  else some l

/-- Model of Go `compress/gzip`: parse the 10-byte header and optional
fields, inflate, and verify the CRC-32 / length trailer.  Returns the
header's embedded file name and the decompressed payload. -/
def gzipDecode (content : List Nat) : Except String (String × List Nat) :=
  match content with
  | id1 :: id2 :: cm :: flg :: _ :: _ :: _ :: _ :: _ :: _ :: rest =>
    if id1 == 0x1F && id2 == 0x8B && cm == 8 then
      match gzSkipExtra flg rest with
      | none => .error "gzip: unexpected EOF"
      | some r1 =>
        match gzName flg r1 with
        | none => .error "gzip: unexpected EOF"
        | some (nm, r2) =>
          match gzSkipComment flg r2 with
          | none => .error "gzip: unexpected EOF"
          | some r3 =>
            match gzSkipHcrc flg r3 with
            | none => .error "gzip: unexpected EOF"
            | some r4 =>
              match inflateStored r4.length r4 [] with
              | .error e => .error e
              | .ok (payload, rest5) =>
                match rest5 with
                | c0 :: c1 :: c2 :: c3 :: s0 :: s1 :: s2 :: s3 :: _ =>
                  if c0 + 256 * c1 + 65536 * c2 + 16777216 * c3 == crc32 payload &&
                      s0 + 256 * s1 + 65536 * s2 + 16777216 * s3
                        == payload.length % 4294967296 then
                    .ok (nm, payload)
                  else .error "gzip: invalid checksum"
                | _ => .error "gzip: unexpected EOF"
    else .error "gzip: invalid header"
  | _ => .error "gzip: unexpected EOF"

/-- Model of Go `compress/bzip2` for the empty stream: header plus the
end-of-stream marker and stream CRC.  Compressed blocks are outside the
model; truncation after the header is an error, as in the library. -/
def bzip2Decode (content : List Nat) : Except String (List Nat) :=
  match content with
  | 0x42 :: 0x5A :: 0x68 :: lvl :: b0 :: b1 :: b2 :: b3 :: b4 :: b5 :: rest =>
    if lvl < 0x31 || 0x39 < lvl then .error "bzip2: invalid level"
    else if b0 == 0x17 && b1 == 0x72 && b2 == 0x45 && b3 == 0x38 &&
        b4 == 0x50 && b5 == 0x90 then
      if decide (rest.length < 4) then .error "bzip2: unexpected EOF" else .ok []
    else if b0 == 0x31 && b1 == 0x41 && b2 == 0x59 && b3 == 0x26 &&
        b4 == 0x53 && b5 == 0x59 then
      .error "bzip2: compressed block outside model"
    else .error "bzip2: invalid magic"
  | _ => .error "bzip2: unexpected EOF"

/-- Is every byte of the list zero? -/
def allZero (l : List Nat) : Bool := l.all (fun b => b == 0)

/-- Parse an octal tar header field: leading and trailing NULs and
spaces trimmed, empty means zero, non-octal characters are a header
error. -/
def octField (l : List Nat) : Option Nat :=
  match ((l.dropWhile (fun b => b == 0x20 || b == 0)).reverse.dropWhile
      (fun b => b == 0x20 || b == 0)).reverse with
  | [] => some 0
  | t =>
    if t.all (fun b => 48 ≤ b && b ≤ 55) then
      some (t.foldl (fun acc b => acc * 8 + (b - 48)) 0)
    else none

/-- The unsigned tar header checksum: the sum of the 512 block bytes
with the checksum field (bytes 148-155) read as spaces. -/
def tarChecksum (block : List Nat) : Nat :=
  (block.take 148).foldl (fun a b => a + b) 0 + 8 * 0x20 +
    (block.drop 156).foldl (fun a b => a + b) 0

/-- src/archives.go `extractTarFile` over the modelled `archive/tar`
reader: iterate 512-byte header blocks; regular files are written
flattened under their base name; directories are skipped; any other
entry type aborts; a short read is an unexpected-EOF error, with the
files already written (including a partial final file) remaining.
Fuel is the byte count (each entry consumes at least 512 bytes). -/
def extractTarFile : Nat → List Nat → String → List (String × List Nat) →
    List (String × List Nat) × Option String
  | 0, _, _, w => (w, some "tar: fuel exhausted")
  | fuel + 1, bytes, destDir, w =>
    if bytes.isEmpty then (w, none)
    else if decide (bytes.length < 512) then (w, some "tar: unexpected EOF")
    else
      let block := bytes.take 512
      let rest := bytes.drop 512
      if allZero block then
        if rest.isEmpty then (w, none)
        else if decide (rest.length < 512) then (w, some "tar: unexpected EOF")
        else if allZero (rest.take 512) then (w, none)
        else (w, some "tar: invalid header")
      else
        match octField ((block.drop 148).take 8) with
        | none => (w, some "tar: invalid header")
        | some chk =>
          if chk ≠ tarChecksum block then (w, some "tar: invalid header")
          else
            match octField ((block.drop 124).take 12) with
            | none => (w, some "tar: invalid header")
            | some size =>
              let name := bytesToStr ((block.take 100).takeWhile (fun b => b ≠ 0))
              let tf := block.getD 156 0
              if tf == 0x35 then
                extractTarFile fuel rest destDir w
              else if tf == 0x30 || tf == 0 then
                if decide (rest.length < size) then
                  (w ++ [(joinPath destDir (baseName name), rest)],
                    some "tar: unexpected EOF")
                else if decide (rest.length < ((size + 511) / 512) * 512) then
                  (w ++ [(joinPath destDir (baseName name), rest.take size)],
                    some "tar: unexpected EOF")
                else
                  extractTarFile fuel (rest.drop (((size + 511) / 512) * 512)) destDir
                    (w ++ [(joinPath destDir (baseName name), rest.take size)])
              else
                (w, some "tar: aborting extraction, unknown file type")

/-- Two little-endian bytes at an offset. -/
def leNat2 (l : List Nat) (off : Nat) : Nat := l.getD off 0 + 256 * l.getD (off + 1) 0

/-- Four little-endian bytes at an offset. -/
def leNat4 (l : List Nat) (off : Nat) : Nat := leNat2 l off + 65536 * leNat2 l (off + 2)

/-- Backward scan for the zip end-of-central-directory signature, as
`zip.NewReader` does; `none` means "zip: not a valid zip file". -/
def findLastSig (l : List Nat) : Option Nat :=
  (List.range l.length).reverse.find? (fun i =>
    decide (i + 4 ≤ l.length) && l.getD i 0 == 0x50 && l.getD (i + 1) 0 == 0x4B &&
      l.getD (i + 2) 0 == 0x05 && l.getD (i + 3) 0 == 0x06)

/-- Read `k` central-directory entries, returning each name and local
header offset. -/
def readCD : Nat → List Nat → Nat → Except String (List (String × Nat))
  | 0, _, _ => .ok []
  | k + 1, content, off =>
    if leNat4 content off == 0x02014B50 then
      let nameLen := leNat2 content (off + 28)
      if decide (off + 46 + nameLen ≤ content.length) then
        match readCD k content
            (off + 46 + nameLen + leNat2 content (off + 30) + leNat2 content (off + 32)) with
        | .ok rest =>
          .ok ((bytesToStr ((content.drop (off + 46)).take nameLen),
            leNat4 content (off + 42)) :: rest)
        | .error e => .error e
      else .error "zip: not a valid zip file"
    else .error "zip: not a valid zip file"

/-- Read one file's data via its local header (stored entries only;
compressed entries are outside the model). -/
def readLocal (content : List Nat) (lhOff : Nat) : Except String (List Nat) :=
  if leNat4 content lhOff == 0x04034B50 then
    if leNat2 content (lhOff + 8) == 0 then
      if decide (lhOff + 30 + leNat2 content (lhOff + 26) + leNat2 content (lhOff + 28) +
          leNat4 content (lhOff + 18) ≤ content.length) then
        .ok ((content.drop
          (lhOff + 30 + leNat2 content (lhOff + 26) + leNat2 content (lhOff + 28))).take
          (leNat4 content (lhOff + 18)))
      else .error "zip: unexpected EOF"
    else .error "zip: compression method outside model"
  else .error "zip: not a valid zip file"

/-- The write loop of src/archives.go `extractZipFile`: skip directory
entries (name ending in "/"), write the rest flattened by base name; an
entry error keeps the files already written. -/
def zipWriteLoop (content : List Nat) (destDir : String) :
    List (String × Nat) → List (String × List Nat) →
    List (String × List Nat) × Option String
  | [], w => (w, none)
  | (name, off) :: rest, w =>
    if strHasSfx name "/" then zipWriteLoop content destDir rest w
    else
      match readLocal content off with
      | .error e => (w, some e)
      | .ok dat =>
        zipWriteLoop content destDir rest (w ++ [(joinPath destDir (baseName name), dat)])

/-- src/archives.go `extractZipFile` over the modelled `archive/zip`
reader: locate the end-of-central-directory record, read the central
directory, then write each regular entry. -/
def extractZipFile (content : List Nat) (destDir : String) :
    List (String × List Nat) × Option String :=
  match findLastSig content with
  | none => ([], some "zip: not a valid zip file")
  | some i =>
    match readCD (leNat2 content (i + 10)) content (leNat4 content (i + 16)) with
    | .error e => ([], some e)
    | .ok entries => zipWriteLoop content destDir entries []

/-- src/archives.go `gunzipFile`: decompress, re-sniff the payload, hand
a tar payload to the tar extractor, otherwise save the payload under the
gzip header's embedded name. -/
def gunzipFile (content : List Nat) (destDir : String) :
    List (String × List Nat) × Option String :=
  match gzipDecode content with
  | .error e => ([], some e)
  | .ok (nm, payload) =>
    if fileTypeOf payload == "tar" then extractTarFile payload.length payload destDir []
    else ([(joinPath destDir nm, payload)], none)

/-- src/archives.go `bunzip2File`: decompress, re-sniff, hand a tar
payload to the tar extractor, otherwise save under the source path minus
its ".bz2"/".BZ2" suffix. -/
def bunzip2File (content : List Nat) (filePath : String) :
    List (String × List Nat) × Option String :=
  match bzip2Decode content with
  | .error e => ([], some e)
  | .ok payload =>
    if fileTypeOf payload == "tar" then
      extractTarFile payload.length payload (dirName filePath) []
    else ([(strTrimSfx (strTrimSfx filePath ".bz2") ".BZ2", payload)], none)

/-- The result of `ExtractFile`: the returned flag and error, plus the
files written on disk (partial writes before an error included - nothing
is rolled back). -/
structure ExtractResult where
  wasExtracted : Bool
  writes : List (String × List Nat)
  err : Option String
deriving DecidableEq

/-- src/archives.go `ExtractFile`: sniff the content's type and dispatch;
every error path returns wasExtracted = false; an unrecognised type
extracts nothing and is not an error. -/
def ExtractFile (filePath : String) (content : List Nat) : ExtractResult :=
  if fileTypeOf content = "gz" then
    match gunzipFile content (dirName filePath) with
    | (w, none) => ⟨true, w, none⟩
    | (w, some e) => ⟨false, w, some e⟩
  else if fileTypeOf content = "bz2" then
    match bunzip2File content filePath with
    | (w, none) => ⟨true, w, none⟩
    | (w, some e) => ⟨false, w, some e⟩
  else if fileTypeOf content = "tar" then
    match extractTarFile content.length content (dirName filePath) [] with
    | (w, none) => ⟨true, w, none⟩
    | (w, some e) => ⟨false, w, some e⟩
  else if fileTypeOf content = "zip" then
    match extractZipFile content (dirName filePath) with
    | (w, none) => ⟨true, w, none⟩
    | (w, some e) => ⟨false, w, some e⟩
  else ⟨false, [], none⟩

/-! ### Concrete archive inputs for the truncation claims -/

/-- Pad or truncate a byte list to a fixed width. -/
def padTo (l : List Nat) (n : Nat) : List Nat :=
  l.take n ++ List.replicate (n - l.length) 0

/-- A number as fixed-width octal digits. -/
def natToOctal : Nat → Nat → List Nat
  | 0, _ => []
  | w + 1, n => natToOctal w (n / 8) ++ [48 + n % 8]

/-- A tar header block before its checksum is filled in (checksum field
holds spaces). -/
def tarHeaderNoChk (name : String) (size : Nat) (typeflag : Nat) : List Nat :=
  padTo (strBytes name) 100 ++ List.replicate 24 48 ++
    (natToOctal 11 size ++ [0]) ++ List.replicate 12 48 ++
    List.replicate 8 0x20 ++ [typeflag] ++ List.replicate 100 0 ++
    [0x75, 0x73, 0x74, 0x61, 0x72] ++ List.replicate 250 0

/-- A tar header block with a valid unsigned checksum. -/
def tarHeader (name : String) (size : Nat) (typeflag : Nat) : List Nat :=
  (tarHeaderNoChk name size typeflag).take 148 ++
    (natToOctal 6 (tarChecksum (tarHeaderNoChk name size typeflag)) ++ [0, 0x20]) ++
    (tarHeaderNoChk name size typeflag).drop 156

/-- Data blocks of a tar entry, zero-padded to a 512-byte boundary. -/
def padBlocks (data : List Nat) : List Nat :=
  data ++ List.replicate (((data.length + 511) / 512) * 512 - data.length) 0

/-- A complete regular-file tar entry. -/
def goodTarEntry (name : String) (data : List Nat) : List Nat :=
  tarHeader name data.length 0x30 ++ padBlocks data

/-- A truncated tar archive: one complete entry, then an entry whose
header announces 100 data bytes of which only 3 are present. -/
def truncatedTar : List Nat :=
  goodTarEntry "file" [104, 105] ++ tarHeader "file2" 100 0x30 ++ [1, 2, 3]

/-! ## Theorems -/

/-! ### String order -/

theorem clLe_cons_iff (x y : Char) (xs ys : List Char) :
    clLe (x :: xs) (y :: ys) = true ↔
      x.toNat < y.toNat ∨ (x = y ∧ clLe xs ys = true) := by
  have hchar : x.toNat = y.toNat → x = y := fun h => Char.ext (UInt32.toNat.inj h)
  simp only [clLe]
  by_cases h1 : x.toNat < y.toNat
  · simp [h1]
  · by_cases h2 : y.toNat < x.toNat
    · rw [if_neg h1, if_pos h2]
      constructor
      · intro h; exact (Bool.false_ne_true h).elim
      · rintro (h | ⟨rfl, h⟩)
        · exact absurd h h1
        · exact absurd h2 (Nat.lt_irrefl _)
    · have hxy : x = y :=
        hchar (Nat.le_antisymm (Nat.not_lt.mp h2) (Nat.not_lt.mp h1))
      simp [h1, h2, hxy]

theorem clLe_refl : ∀ xs : List Char, clLe xs xs = true := by
  intro xs
  induction xs with
  | nil => rfl
  | cons x xs ih => rw [clLe_cons_iff]; exact Or.inr ⟨rfl, ih⟩

theorem clLe_total : ∀ xs ys : List Char, clLe xs ys = true ∨ clLe ys xs = true := by
  intro xs
  induction xs with
  | nil => intro ys; exact Or.inl rfl
  | cons x xs ih =>
    intro ys
    cases ys with
    | nil => exact Or.inr rfl
    | cons y ys =>
      rcases Nat.lt_trichotomy x.toNat y.toNat with h | h | h
      · exact Or.inl ((clLe_cons_iff ..).mpr (Or.inl h))
      · have hxy : x = y := Char.ext (UInt32.toNat.inj h)
        subst hxy
        rcases ih ys with h' | h'
        · exact Or.inl ((clLe_cons_iff ..).mpr (Or.inr ⟨rfl, h'⟩))
        · exact Or.inr ((clLe_cons_iff ..).mpr (Or.inr ⟨rfl, h'⟩))
      · exact Or.inr ((clLe_cons_iff ..).mpr (Or.inl h))

theorem clLe_trans :
    ∀ xs ys zs : List Char, clLe xs ys = true → clLe ys zs = true → clLe xs zs = true := by
  intro xs
  induction xs with
  | nil => intro ys zs _ _; rfl
  | cons x xs ih =>
    intro ys zs h1 h2
    cases ys with
    | nil => simp [clLe] at h1
    | cons y ys =>
      cases zs with
      | nil => simp [clLe] at h2
      | cons z zs =>
        rw [clLe_cons_iff] at h1 h2 ⊢
        rcases h1 with h1 | ⟨rfl, h1⟩
        · rcases h2 with h2 | ⟨rfl, h2⟩
          · exact Or.inl (Nat.lt_trans h1 h2)
          · exact Or.inl h1
        · rcases h2 with h2 | ⟨rfl, h2⟩
          · exact Or.inl h2
          · exact Or.inr ⟨rfl, ih ys zs h1 h2⟩

theorem clLe_antisymm :
    ∀ xs ys : List Char, clLe xs ys = true → clLe ys xs = true → xs = ys := by
  intro xs
  induction xs with
  | nil =>
    intro ys _ h2
    cases ys with
    | nil => rfl
    | cons y ys => simp [clLe] at h2
  | cons x xs ih =>
    intro ys h1 h2
    cases ys with
    | nil => simp [clLe] at h1
    | cons y ys =>
      rw [clLe_cons_iff] at h1 h2
      rcases h1 with h1 | ⟨rfl, h1⟩
      · rcases h2 with h2 | ⟨rfl, h2⟩
        · exact absurd h1 (Nat.lt_asymm h2)
        · exact absurd h1 (Nat.lt_irrefl _)
      · rcases h2 with h2 | ⟨h2e, h2⟩
        · exact absurd h2 (Nat.lt_irrefl _)
        · rw [ih ys h1 h2]

theorem strLe_refl (a : String) : strLe a a = true := clLe_refl a.data

theorem strLe_total (a b : String) : strLe a b = true ∨ strLe b a = true :=
  clLe_total a.data b.data

theorem strLe_trans {a b c : String} (h1 : strLe a b = true) (h2 : strLe b c = true) :
    strLe a c = true :=
  clLe_trans a.data b.data c.data h1 h2

theorem strLe_antisymm {a b : String} (h1 : strLe a b = true) (h2 : strLe b a = true) :
    a = b := by
  cases a; cases b
  exact congrArg String.mk (clLe_antisymm _ _ h1 h2)

/-! ### Insertion sort -/

theorem ordInsert_perm (le : α → α → Bool) (a : α) :
    ∀ l : List α, (ordInsert le a l).Perm (a :: l) := by
  intro l
  induction l with
  | nil => simp [ordInsert]
  | cons b l ih =>
    simp only [ordInsert]
    by_cases h : le a b
    · simp [h]
    · simp only [h, Bool.false_eq_true, ite_false]
      exact (ih.cons b).trans (List.Perm.swap a b l)

theorem sortBy_perm (le : α → α → Bool) :
    ∀ l : List α, (sortBy le l).Perm l := by
  intro l
  induction l with
  | nil => simp [sortBy]
  | cons a l ih =>
    simp only [sortBy]
    exact (ordInsert_perm le a (sortBy le l)).trans (ih.cons a)

theorem sortBy_length (le : α → α → Bool) (l : List α) :
    (sortBy le l).length = l.length :=
  (sortBy_perm le l).length_eq

theorem sortBy_mem (le : α → α → Bool) (l : List α) (x : α) :
    x ∈ sortBy le l ↔ x ∈ l :=
  (sortBy_perm le l).mem_iff

theorem ordInsert_chain (le : α → α → Bool) (a : α) :
    ∀ l : List α,
      (∀ x ∈ l, le a x = true ∨ le x a = true) →
      List.Chain' (fun x y => le x y = true) l →
      List.Chain' (fun x y => le x y = true) (ordInsert le a l) := by
  intro l
  induction l with
  | nil => intro _ _; simp [ordInsert]
  | cons b l ih =>
    intro htot hch
    simp only [ordInsert]
    by_cases h : le a b
    · simp only [h, ite_true]
      exact List.Chain'.cons h hch
    · simp only [h, Bool.false_eq_true, ite_false]
      have hba : le b a = true := by
        rcases htot b (by simp) with h' | h'
        · exact absurd h' h
        · exact h'
      have hrec := ih (fun x hx => htot x (by simp [hx])) hch.tail
      cases l with
      | nil => exact List.chain'_pair.mpr hba
      | cons c l' =>
        simp only [ordInsert] at hrec ⊢
        by_cases h2 : le a c
        · simp only [h2, ite_true] at hrec ⊢
          exact List.Chain'.cons hba hrec
        · simp only [h2, Bool.false_eq_true, ite_false] at hrec ⊢
          have hbc : le b c = true := (List.chain'_cons.mp hch).1
          exact List.Chain'.cons hbc hrec

theorem sortBy_chain (le : α → α → Bool) :
    ∀ l : List α,
      (∀ x ∈ l, ∀ y ∈ l, le x y = true ∨ le y x = true) →
      List.Chain' (fun x y => le x y = true) (sortBy le l) := by
  intro l
  induction l with
  | nil => intro _; simp [sortBy]
  | cons a l ih =>
    intro htot
    simp only [sortBy]
    apply ordInsert_chain
    · intro x hx
      have hx' : x ∈ l := (sortBy_mem le l x).mp hx
      exact htot a (by simp) x (by simp [hx'])
    · exact ih (fun x hx y hy => htot x (by simp [hx]) y (by simp [hy]))

theorem chain_head_rel (le : α → α → Bool) :
    ∀ (l : List α) (a : α),
      (∀ x ∈ a :: l, ∀ y ∈ a :: l, ∀ z ∈ a :: l,
        le x y = true → le y z = true → le x z = true) →
      List.Chain' (fun x y => le x y = true) (a :: l) →
      ∀ b ∈ l, le a b = true := by
  intro l
  induction l with
  | nil => intro a _ _ b hb; simp at hb
  | cons c l' ih =>
    intro a htrans hch b hb
    have hac : le a c = true := (List.chain'_cons.mp hch).1
    rcases List.mem_cons.mp hb with hbc | hbl
    · subst hbc; exact hac
    · have htrans' : ∀ x ∈ c :: l', ∀ y ∈ c :: l', ∀ z ∈ c :: l',
          le x y = true → le y z = true → le x z = true := by
        intro x hx y hy z hz
        exact htrans x (by simp [List.mem_cons.mp hx]) y
          (by simp [List.mem_cons.mp hy]) z (by simp [List.mem_cons.mp hz])
      have hcb : le c b = true := ih c htrans' hch.tail b hbl
      exact htrans a (by simp) c (by simp) b (by simp [hbl]) hac hcb

theorem chain_to_pairwise (le : α → α → Bool) :
    ∀ l : List α,
      (∀ x ∈ l, ∀ y ∈ l, ∀ z ∈ l, le x y = true → le y z = true → le x z = true) →
      List.Chain' (fun x y => le x y = true) l →
      l.Pairwise (fun x y => le x y = true) := by
  intro l
  induction l with
  | nil => intro _ _; simp
  | cons a l ih =>
    intro htrans hch
    refine List.Pairwise.cons ?_
      (ih (fun x hx y hy z hz =>
        htrans x (by simp [hx]) y (by simp [hy]) z (by simp [hz])) hch.tail)
    exact chain_head_rel le l a htrans hch

theorem revFind_isSome (p : α → Bool) (l : List α) :
    (∃ x ∈ l, p x = true) → (revFind p l).isSome := by
  intro ⟨x, hx, hpx⟩
  unfold revFind
  rw [List.find?_isSome]
  exact ⟨x, by simp [hx], hpx⟩

theorem find?_desc_max (le : α → α → Bool) (p : α → Bool) :
    ∀ (r : List α), r.Pairwise (fun a b => le b a = true) →
      ∀ t, r.find? p = some t →
        p t = true ∧ t ∈ r ∧ ∀ u ∈ r, p u = true → u = t ∨ le u t = true := by
  intro r
  induction r with
  | nil => intro _ t h; simp at h
  | cons a r' ih =>
    intro hp t h
    by_cases hpa : p a
    · rw [List.find?_cons_of_pos _ hpa] at h
      injection h with h
      subst h
      refine ⟨hpa, by simp, ?_⟩
      intro u hu _
      rcases List.mem_cons.mp hu with h' | h'
      · exact Or.inl h'
      · exact Or.inr ((List.pairwise_cons.mp hp).1 u h')
    · rw [List.find?_cons_of_neg _ hpa] at h
      obtain ⟨h1, h2, h3⟩ := ih (List.pairwise_cons.mp hp).2 t h
      refine ⟨h1, by simp [h2], ?_⟩
      intro u hu hpu
      rcases List.mem_cons.mp hu with h' | h'
      · subst h'; exact absurd hpu hpa
      · exact h3 u h' hpu

theorem revFind_max (le : α → α → Bool) (p : α → Bool) (l : List α)
    (hp : l.Pairwise (fun a b => le a b = true)) (t : α)
    (h : revFind p l = some t) :
    p t = true ∧ t ∈ l ∧ ∀ u ∈ l, p u = true → u = t ∨ le u t = true := by
  have hrev : l.reverse.Pairwise (fun a b => le b a = true) :=
    List.pairwise_reverse.mpr hp
  obtain ⟨h1, h2, h3⟩ := find?_desc_max le p l.reverse hrev t h
  exact ⟨h1, by simpa using h2, fun u hu hpu => h3 u (by simpa using hu) hpu⟩

/-! ### Segment comparison -/

theorem segCmp_refl : ∀ l : List Nat, segCmp l l = .eq := by
  intro l
  induction l with
  | nil => simp [segCmp]
  | cons x xs ih => simp [segCmp, Nat.lt_irrefl, ih]

theorem segCmp_nil_left_ne_gt : ∀ l : List Nat, segCmp [] l ≠ .gt := by
  intro l
  simp only [segCmp]
  by_cases h : l.all (fun y => y == 0) <;> simp [h]

theorem segCmp_cons_nil_ne_gt (x : Nat) (xs : List Nat) :
    segCmp (x :: xs) [] ≠ .gt ↔ x = 0 ∧ segCmp xs [] ≠ .gt := by
  by_cases h : x = 0
  · simp [segCmp, h]
  · simp [segCmp, h]

theorem segCmp_cons_ne_gt (x y : Nat) (xs ys : List Nat) :
    segCmp (x :: xs) (y :: ys) ≠ .gt ↔
      x < y ∨ (x = y ∧ segCmp xs ys ≠ .gt) := by
  rcases Nat.lt_trichotomy x y with h | h | h
  · simp [segCmp, h]
  · subst h
    simp [segCmp, Nat.lt_irrefl]
  · simp only [segCmp, if_neg (Nat.lt_asymm h), if_pos h]
    constructor
    · intro hc; exact absurd rfl hc
    · rintro (hc | ⟨rfl, hc⟩)
      · exact absurd hc (Nat.lt_asymm h)
      · exact absurd h (Nat.lt_irrefl _)

theorem segCmp_le_total :
    ∀ xs ys : List Nat, segCmp xs ys ≠ .gt ∨ segCmp ys xs ≠ .gt := by
  intro xs
  induction xs with
  | nil => intro ys; exact Or.inl (segCmp_nil_left_ne_gt ys)
  | cons x xs ih =>
    intro ys
    cases ys with
    | nil => exact Or.inr (segCmp_nil_left_ne_gt (x :: xs))
    | cons y ys =>
      rcases Nat.lt_trichotomy x y with h | h | h
      · exact Or.inl ((segCmp_cons_ne_gt ..).mpr (Or.inl h))
      · subst h
        rcases ih ys with h' | h'
        · exact Or.inl ((segCmp_cons_ne_gt ..).mpr (Or.inr ⟨rfl, h'⟩))
        · exact Or.inr ((segCmp_cons_ne_gt ..).mpr (Or.inr ⟨rfl, h'⟩))
      · exact Or.inr ((segCmp_cons_ne_gt ..).mpr (Or.inl h))

theorem segCmp_le_trans :
    ∀ xs ys zs : List Nat,
      segCmp xs ys ≠ .gt → segCmp ys zs ≠ .gt → segCmp xs zs ≠ .gt := by
  intro xs
  induction xs with
  | nil => intro ys zs _ _; exact segCmp_nil_left_ne_gt zs
  | cons x xs ih =>
    intro ys zs h1 h2
    cases ys with
    | nil =>
      obtain ⟨hx0, hxs⟩ := (segCmp_cons_nil_ne_gt x xs).mp h1
      subst hx0
      cases zs with
      | nil => exact h1
      | cons z zs' =>
        rcases Nat.eq_zero_or_pos z with hz | hz
        · subst hz
          refine (segCmp_cons_ne_gt ..).mpr (Or.inr ⟨rfl, ?_⟩)
          exact ih [] zs' hxs (segCmp_nil_left_ne_gt zs')
        · exact (segCmp_cons_ne_gt ..).mpr (Or.inl hz)
    | cons y ys' =>
      cases zs with
      | nil =>
        obtain ⟨hy0, hys⟩ := (segCmp_cons_nil_ne_gt y ys').mp h2
        subst hy0
        rcases (segCmp_cons_ne_gt ..).mp h1 with hlt | ⟨hx0, hxs⟩
        · exact absurd hlt (Nat.not_lt_zero x)
        · subst hx0
          exact (segCmp_cons_nil_ne_gt 0 xs).mpr ⟨rfl, ih ys' [] hxs hys⟩
      | cons z zs' =>
        rcases (segCmp_cons_ne_gt ..).mp h1 with hxy | ⟨hxy, hxs⟩
        · rcases (segCmp_cons_ne_gt ..).mp h2 with hyz | ⟨hyz, hys⟩
          · exact (segCmp_cons_ne_gt ..).mpr (Or.inl (Nat.lt_trans hxy hyz))
          · subst hyz
            exact (segCmp_cons_ne_gt ..).mpr (Or.inl hxy)
        · subst hxy
          rcases (segCmp_cons_ne_gt ..).mp h2 with hyz | ⟨hyz, hys⟩
          · exact (segCmp_cons_ne_gt ..).mpr (Or.inl hyz)
          · subst hyz
            exact (segCmp_cons_ne_gt ..).mpr (Or.inr ⟨rfl, ih ys' zs' hxs hys⟩)

/-! ### sortVersions -/

theorem versionCompare_prefree (x y : HVersion)
    (hx : x.pre = "") (hy : y.pre = "") :
    versionCompare x y = segCmp x.segments y.segments := by
  unfold versionCompare
  by_cases h : x.segments = y.segments
  · rw [if_pos h, h, segCmp_refl, if_pos (hx.trans hy.symm)]
  · rw [if_neg h]

theorem versionLe_eq {a b : String} {va vb : HVersion}
    (hva : newVersion a = some va) (hvb : newVersion b = some vb) :
    versionLe a b = decide (versionCompare va vb ≠ Ordering.gt) := by
  unfold versionLe
  rw [hva, hvb]

theorem numericVersion_elim {s : String} (h : numericVersion s = true) :
    ∃ v, newVersion s = some v ∧ v.pre = "" := by
  unfold numericVersion at h
  cases hv : newVersion s with
  | none => rw [hv] at h; simp at h
  | some v =>
    rw [hv] at h
    simp only [beq_iff_eq] at h
    exact ⟨v, rfl, h⟩

theorem versionLe_total_numeric {a b : String}
    (ha : numericVersion a = true) (hb : numericVersion b = true) :
    versionLe a b = true ∨ versionLe b a = true := by
  obtain ⟨va, hva, hpa⟩ := numericVersion_elim ha
  obtain ⟨vb, hvb, hpb⟩ := numericVersion_elim hb
  rw [versionLe_eq hva hvb, versionLe_eq hvb hva]
  rw [versionCompare_prefree va vb hpa hpb, versionCompare_prefree vb va hpb hpa]
  rcases segCmp_le_total va.segments vb.segments with h | h
  · exact Or.inl (by simpa using h)
  · exact Or.inr (by simpa using h)

theorem versionLe_trans_numeric {a b c : String}
    (ha : numericVersion a = true) (hb : numericVersion b = true)
    (hc : numericVersion c = true)
    (h1 : versionLe a b = true) (h2 : versionLe b c = true) :
    versionLe a c = true := by
  obtain ⟨va, hva, hpa⟩ := numericVersion_elim ha
  obtain ⟨vb, hvb, hpb⟩ := numericVersion_elim hb
  obtain ⟨vc, hvc, hpc⟩ := numericVersion_elim hc
  rw [versionLe_eq hva hvb, versionCompare_prefree va vb hpa hpb] at h1
  rw [versionLe_eq hvb hvc, versionCompare_prefree vb vc hpb hpc] at h2
  rw [versionLe_eq hva hvc, versionCompare_prefree va vc hpa hpc]
  have := segCmp_le_trans va.segments vb.segments vc.segments
    (by simpa using h1) (by simpa using h2)
  simpa using this

theorem sortVersions_parse_branch (vs : List String)
    (hall : (substEmpty vs).all (fun v => (newVersion v).isSome) = true) :
    sortVersions vs = sortBy versionLe (substEmpty vs) := by
  unfold sortVersions
  rw [if_pos hall]

theorem sortVersions_fallback_branch (vs : List String)
    (hnall : ¬ (substEmpty vs).all (fun v => (newVersion v).isSome) = true) :
    sortVersions vs = sortBy strLe vs := by
  unfold sortVersions
  rw [if_neg hnall]

theorem numericVersion_isSome {s : String} (h : numericVersion s = true) :
    (newVersion s).isSome = true := by
  obtain ⟨v, hv, -⟩ := numericVersion_elim h
  rw [hv]
  rfl

theorem sortVersions_numeric_perm (vs : List String)
    (hall : (substEmpty vs).all (fun v => (newVersion v).isSome) = true) :
    (sortVersions vs).Perm (substEmpty vs) := by
  rw [sortVersions_parse_branch vs hall]
  exact sortBy_perm versionLe (substEmpty vs)

theorem sortVersions_numeric_pairwise (vs : List String)
    (hnum : (substEmpty vs).all numericVersion = true) :
    (sortVersions vs).Pairwise (fun a b => versionLe a b = true) := by
  have hnum' : ∀ x ∈ substEmpty vs, numericVersion x = true := by
    intro x hx
    exact List.all_eq_true.mp hnum x hx
  have hall : (substEmpty vs).all (fun v => (newVersion v).isSome) = true := by
    rw [List.all_eq_true]
    intro x hx
    exact numericVersion_isSome (hnum' x hx)
  rw [sortVersions_parse_branch vs hall]
  have hmem : ∀ x ∈ sortBy versionLe (substEmpty vs), numericVersion x = true := by
    intro x hx
    exact hnum' x ((sortBy_mem versionLe (substEmpty vs) x).mp hx)
  apply chain_to_pairwise
  · intro x hx y hy z hz h1 h2
    exact versionLe_trans_numeric (hmem x hx) (hmem y hy) (hmem z hz) h1 h2
  · apply sortBy_chain
    intro x hx y hy
    exact versionLe_total_numeric (hnum' x hx) (hnum' y hy)

theorem sortVersions_fallback_perm (vs : List String)
    (hnall : ¬ (substEmpty vs).all (fun v => (newVersion v).isSome) = true) :
    (sortVersions vs).Perm vs := by
  rw [sortVersions_fallback_branch vs hnall]
  exact sortBy_perm strLe vs

theorem sortVersions_fallback_pairwise (vs : List String)
    (hnall : ¬ (substEmpty vs).all (fun v => (newVersion v).isSome) = true) :
    (sortVersions vs).Pairwise (fun a b => strLe a b = true) := by
  rw [sortVersions_fallback_branch vs hnall]
  apply chain_to_pairwise
  · intro x _ y _ z _ h1 h2
    exact strLe_trans h1 h2
  · apply sortBy_chain
    intro x _ y _
    exact strLe_total x y

theorem sortVersions_single (s : String) :
    sortVersions [s] = [if s = "" then "0.0.0" else s] := by
  unfold sortVersions substEmpty
  simp only [List.map_cons, List.map_nil, List.all_cons, List.all_nil, Bool.and_true]
  by_cases hp : (newVersion (if s = "" then "0.0.0" else s)).isSome = true
  · rw [if_pos hp]
    simp [sortBy, ordInsert]
  · rw [if_neg hp]
    have hs : s ≠ "" := by
      intro he
      rw [if_pos he] at hp
      exact hp (by decide)
    rw [if_neg hs]
    simp [sortBy, ordInsert]

/-- Claim C4 (amended): if every element of the list (after replacing
empty strings by "0.0.0") parses as a plain dotted numeric version, the
result is a permutation of those strings in ascending numeric order; if
any element fails to parse under the version grammar, the result is the
original strings in ascending lexicographic order; and a one-element
list is returned unchanged, except that a single empty string comes back
as "0.0.0". -/
theorem sortVersions_ordering :
    (∀ vs : List String, vs ≠ [] →
      (substEmpty vs).all numericVersion = true →
      (sortVersions vs).Perm (substEmpty vs) ∧
      (sortVersions vs).Pairwise (fun a b => versionLe a b = true)) ∧
    (∀ vs : List String,
      ¬ (substEmpty vs).all (fun v => (newVersion v).isSome) = true →
      (sortVersions vs).Perm vs ∧
      (sortVersions vs).Pairwise (fun a b => strLe a b = true)) ∧
    (∀ s : String, sortVersions [s] = [if s = "" then "0.0.0" else s]) := by
  refine ⟨?_, ?_, sortVersions_single⟩
  · intro vs _ hnum
    have hall : (substEmpty vs).all (fun v => (newVersion v).isSome) = true := by
      rw [List.all_eq_true]
      intro x hx
      exact numericVersion_isSome (List.all_eq_true.mp hnum x hx)
    exact ⟨sortVersions_numeric_perm vs hall, sortVersions_numeric_pairwise vs hnum⟩
  · intro vs hnall
    exact ⟨sortVersions_fallback_perm vs hnall, sortVersions_fallback_pairwise vs hnall⟩

/-- Claim C4, witness: the numeric branch on the list ["10", "9"]
(where "9" must sort before "10") and the lexicographic branch on
["b", "a"]. -/
theorem sortVersions_ordering_witness :
    ((sortVersions ["10", "9"]).Perm (substEmpty ["10", "9"]) ∧
      (sortVersions ["10", "9"]).Pairwise (fun a b => versionLe a b = true)) ∧
    ((sortVersions ["b", "a"]).Perm ["b", "a"] ∧
      (sortVersions ["b", "a"]).Pairwise (fun a b => strLe a b = true)) :=
  ⟨sortVersions_ordering.1 ["10", "9"] (by simp) (by decide),
   sortVersions_ordering.2.1 ["b", "a"] (by decide)⟩

/-- Claim C4, counterexample to the claim as stated: the one-element
list containing the empty string is not returned unchanged — the empty
string comes back as "0.0.0". -/
theorem sortVersions_single_empty_changed :
    sortVersions [""] = ["0.0.0"] ∧ sortVersions [""] ≠ [""] := by
  constructor
  · decide
  · decide

/-- Claim C10: `sortVersions` returns a list of the same length as its
input (the slice is reordered in place, modelled here by the returned
list being the slice's final contents); when every substituted entry
parses, the result is a permutation of the substituted entries, so each
empty input appears as "0.0.0" and no empty string remains; in the
lexicographic-fallback case the result is exactly the original strings
reordered. -/
theorem sortVersions_frame :
    ∀ vs : List String,
      (sortVersions vs).length = vs.length ∧
      ((substEmpty vs).all (fun v => (newVersion v).isSome) = true →
        (sortVersions vs).Perm (substEmpty vs) ∧
        ("" ∈ vs → "0.0.0" ∈ sortVersions vs) ∧
        "" ∉ sortVersions vs) ∧
      (¬ (substEmpty vs).all (fun v => (newVersion v).isSome) = true →
        (sortVersions vs).Perm vs) := by
  intro vs
  refine ⟨?_, ?_, sortVersions_fallback_perm vs⟩
  · by_cases hall : (substEmpty vs).all (fun v => (newVersion v).isSome) = true
    · rw [sortVersions_parse_branch vs hall]
      rw [sortBy_length]
      unfold substEmpty
      rw [List.length_map]
    · rw [sortVersions_fallback_branch vs hall, sortBy_length]
  · intro hall
    have hperm := sortVersions_numeric_perm vs hall
    refine ⟨hperm, ?_, ?_⟩
    · intro hmem
      rw [hperm.mem_iff]
      unfold substEmpty
      rw [List.mem_map]
      exact ⟨"", hmem, by simp⟩
    · intro hmem
      rw [hperm.mem_iff] at hmem
      unfold substEmpty at hmem
      rw [List.mem_map] at hmem
      obtain ⟨x, _, hx⟩ := hmem
      by_cases hxe : x = ""
      · rw [if_pos hxe] at hx
        exact absurd hx (by decide)
      · rw [if_neg hxe] at hx
        exact absurd hx hxe

/-- Claim C10, witness: on ["", "1.0"] every substituted entry parses,
the length is preserved, the result is a permutation of ["0.0.0", "1.0"],
and the empty string has been replaced by "0.0.0". -/
theorem sortVersions_frame_witness :
    (sortVersions ["", "1.0"]).length = 2 ∧
    (sortVersions ["", "1.0"]).Perm ["0.0.0", "1.0"] ∧
    "0.0.0" ∈ sortVersions ["", "1.0"] ∧ "" ∉ sortVersions ["", "1.0"] := by
  have h := sortVersions_frame ["", "1.0"]
  have h2 := h.2.1 (by decide)
  exact ⟨h.1, h2.1, h2.2.1 (by simp), h2.2.2⟩

/-! ### Version resolution (claims C1 - C3) -/

theorem revFind_mem_and (p : α → Bool) (l : List α) (t : α)
    (h : revFind p l = some t) : t ∈ l ∧ p t = true :=
  ⟨by simpa using List.mem_of_find?_eq_some h, List.find?_some h⟩

theorem partialTags_mem {g : GithubReleases} {t : String}
    (ht : t ∈ partialTags g) (hne : t ≠ "") :
    ∃ r ∈ g, r.PreRelease = false ∧ r.TagName = t := by
  unfold partialTags at ht
  rw [List.mem_map] at ht
  obtain ⟨r, hr, hrt⟩ := ht
  by_cases hp : r.PreRelease = true
  · simp only [hp, if_true] at hrt
    exact absurd hrt.symm hne
  · simp only [hp, if_false] at hrt
    exact ⟨r, hr, by simpa using hp, hrt⟩

/-- Claim C1 (amended): for every NON-EMPTY release list and every
version request that is neither empty nor "latest", `findTagForVersion`
attempts the matching strategies in strict order - exact tag match,
v-toggled tag match, display-name match, v-toggled display-name match,
partial-version match - returning the first success, and when all fail
it reports (found = false) without an error.  (On an empty release list
it instead fails with the error "there are no releases".) -/
theorem findTagForVersion_cascade (latest : Except String String)
    (g : GithubReleases) (v : String)
    (hv : v ≠ "") (hl : equalFold v "latest" = false) (hg : g ≠ []) :
    findTagForVersion latest g v =
      .ok (match specResolve g v with
           | some t => (t, true)
           | none => ("", false)) := by
  unfold findTagForVersion specResolve foundTag
  rw [if_neg (by simp [hv, hl]), if_neg (by simp [hg])]
  by_cases h1 : (tagExists g v).2 = true <;>
    by_cases h2 : (tagExists g (toggleVPrefix v)).2 = true <;>
      by_cases h3 : (tagForReleaseName g v).2 = true <;>
        by_cases h4 : (tagForReleaseName g (toggleVPrefix v)).2 = true <;>
          by_cases h5 : (MatchTagFromPartialVersion g v).2 = true <;>
            simp [h1, h2, h3, h4, h5, Option.orElse]

/-- Claim C1, witness: the cascade at a concrete one-release list and
the request "1.0", whose exact-tag strategy succeeds. -/
theorem findTagForVersion_cascade_witness :
    findTagForVersion (Except.ok "z") [⟨"1.0", "1.0", false⟩] "1.0" =
      .ok (match specResolve [⟨"1.0", "1.0", false⟩] "1.0" with
           | some t => (t, true)
           | none => ("", false)) :=
  findTagForVersion_cascade (Except.ok "z") [⟨"1.0", "1.0", false⟩] "1.0"
    (by decide) (by decide) (by decide)

/-- Claim C1, counterexample to the claim as stated: on the empty
release list (all strategies trivially fail) the function does not
report (found = false) - it returns the error "there are no releases". -/
theorem findTagForVersion_empty_errors :
    findTagForVersion (Except.ok "v9.9.9") [] "1.0" = .error "there are no releases" ∧
    findTagForVersion (Except.ok "v9.9.9") [] "1.0" ≠ .ok ("", false) := by
  have h1 : findTagForVersion (Except.ok "v9.9.9") [] "1.0" =
      .error "there are no releases" := rfl
  refine ⟨h1, ?_⟩
  rw [h1]
  intro h
  exact Except.noConfusion h

/-- Claim C2 (amended): `MatchTagFromPartialVersion` collects the tags
of non-prerelease releases (a prerelease slot contributes an empty
string), sorts them with `sort.Strings` - plain ascending lexicographic
order, NOT the section-4.1 version ordering - and scans from the end,
returning the first tag whose lower-cased form starts with the
lower-cased request or with "v" plus it; hence whenever some entry
matches directly, the returned tag is the greatest matching entry in
LEXICOGRAPHIC order (a second prefix-stripping scan applies only when
no entry matches directly). -/
theorem matchTagPartial_lexicographic_newest (g : GithubReleases) (pv : String)
    (hex : ∃ t ∈ partialTags g, partialMatchPred pv t = true) :
    ∃ t, MatchTagFromPartialVersion g pv = (t, true) ∧
      partialMatchPred pv t = true ∧
      t ∈ partialTags g ∧
      ∀ u ∈ partialTags g, partialMatchPred pv u = true → strLe u t = true := by
  unfold MatchTagFromPartialVersion
  have hex' : ∃ t ∈ sortBy strLe (partialTags g), partialMatchPred pv t = true := by
    obtain ⟨t, ht, hp⟩ := hex
    exact ⟨t, (sortBy_mem strLe (partialTags g) t).mpr ht, hp⟩
  have hsome := revFind_isSome (partialMatchPred pv) (sortBy strLe (partialTags g)) hex'
  cases hfind : revFind (partialMatchPred pv) (sortBy strLe (partialTags g)) with
  | none => rw [hfind] at hsome; simp at hsome
  | some t =>
    have hpw : (sortBy strLe (partialTags g)).Pairwise (fun a b => strLe a b = true) := by
      apply chain_to_pairwise
      · intro x _ y _ z _
        exact fun a b => strLe_trans a b
      · apply sortBy_chain
        intro x _ y _
        exact strLe_total x y
    obtain ⟨hpt, htm, hmax⟩ :=
      revFind_max strLe (partialMatchPred pv) (sortBy strLe (partialTags g)) hpw t hfind
    refine ⟨t, rfl, hpt, (sortBy_mem strLe (partialTags g) t).mp htm, ?_⟩
    intro u hu hpu
    rcases hmax u ((sortBy_mem strLe (partialTags g) u).mpr hu) hpu with h | h
    · rw [h]; exact strLe_refl t
    · exact h

/-- Claim C2, witness: on the releases 0.9 and 1.0.2 with request "1",
the returned tag 1.0.2 is the greatest matching entry. -/
theorem matchTagPartial_lexicographic_newest_witness :
    ∃ t, MatchTagFromPartialVersion
        [⟨"0.9", "0.9", false⟩, ⟨"1.0.2", "1.0.2", false⟩] "1" = (t, true) ∧
      partialMatchPred "1" t = true ∧
      t ∈ partialTags [⟨"0.9", "0.9", false⟩, ⟨"1.0.2", "1.0.2", false⟩] ∧
      ∀ u ∈ partialTags [⟨"0.9", "0.9", false⟩, ⟨"1.0.2", "1.0.2", false⟩],
        partialMatchPred "1" u = true → strLe u t = true :=
  matchTagPartial_lexicographic_newest
    [⟨"0.9", "0.9", false⟩, ⟨"1.0.2", "1.0.2", false⟩] "1" (by decide)

/-- Claim C2, counterexample to the claim as stated: with the
non-prerelease tags 1.2 and 1.10 and the request "1", the code returns
1.2 - the newest matching tag in LEXICOGRAPHIC order - although under
the section-4.1 version ordering (shown by `sortVersions`) the newest
matching tag is 1.10. -/
theorem matchTagPartial_ignores_version_order :
    MatchTagFromPartialVersion
      [⟨"1.2", "1.2", false⟩, ⟨"1.10", "1.10", false⟩] "1" = ("1.2", true) ∧
    sortVersions ["1.2", "1.10"] = ["1.2", "1.10"] := by
  constructor
  · decide
  · decide

/-- Claim C3 (amended): partial matching excludes exactly the releases
carrying the prerelease FLAG - a non-empty returned tag always belongs
to a release with the flag unset; tag text such as "-rc", "-alpha" or
"-beta" is NOT inspected.  On the example set, where 1.0.3-rc1 carries
the flag, request "1" returns ("1.0.2", true), skipping 1.0.3-rc1. -/
theorem matchTagPartial_prerelease_flag_only :
    (∀ (g : GithubReleases) (pv t : String),
      MatchTagFromPartialVersion g pv = (t, true) → t ≠ "" →
      ∃ r ∈ g, r.PreRelease = false ∧ r.TagName = t) ∧
    MatchTagFromPartialVersion exampleReleases "1" = ("1.0.2", true) := by
  constructor
  · intro g pv t hmatch htne
    unfold MatchTagFromPartialVersion at hmatch
    cases h1 : revFind (partialMatchPred pv) (sortBy strLe (partialTags g)) with
    | some t1 =>
      rw [h1] at hmatch
      simp only [Prod.mk.injEq] at hmatch
      obtain ⟨heq, -⟩ := hmatch
      have hmem := (revFind_mem_and _ _ _ h1).1
      rw [heq] at hmem
      exact partialTags_mem ((sortBy_mem strLe (partialTags g) t).mp hmem) htne
    | none =>
      rw [h1] at hmatch
      cases h2 : revFind (strippedMatchPred pv) (sortBy strLe (partialTags g)) with
      | some t2 =>
        rw [h2] at hmatch
        simp only [Prod.mk.injEq] at hmatch
        obtain ⟨heq, -⟩ := hmatch
        have hmem := (revFind_mem_and _ _ _ h2).1
        rw [heq] at hmem
        exact partialTags_mem ((sortBy_mem strLe (partialTags g) t).mp hmem) htne
      | none =>
        rw [h2] at hmatch
        simp at hmatch
  · decide

/-- Claim C3, witness: on a one-release list with an unflagged tag v1.5
and request "1.5", the general statement yields the release itself. -/
theorem matchTagPartial_prerelease_flag_only_witness :
    ∃ r ∈ ([⟨"a", "v1.5", false⟩] : GithubReleases),
      r.PreRelease = false ∧ r.TagName = "v1.5" :=
  matchTagPartial_prerelease_flag_only.1 [⟨"a", "v1.5", false⟩] "1.5" "v1.5"
    (by decide) (by decide)

/-- Claim C3, counterexample to the claim as stated: a tag whose text
contains "-rc" but whose release record does NOT carry the prerelease
flag IS returned by partial matching. -/
theorem matchTagPartial_returns_unflagged_rc :
    MatchTagFromPartialVersion
      [⟨"1.0.3-rc1", "1.0.3-rc1", false⟩] "1.0.3" = ("1.0.3-rc1", true) ∧
    strContains "1.0.3-rc1" "-rc" = true := by
  constructor
  · decide
  · decide

/-! ### Asset matching (claims C6, C8) -/

theorem strIdxAux_prefix (sub : List Char) :
    ∀ (l : List Char) (i j : Nat), strIdxAux sub l i = some j →
      i ≤ j ∧ sub.isPrefixOf (l.drop (j - i)) = true := by
  intro l
  induction l with
  | nil =>
    intro i j h
    unfold strIdxAux at h
    by_cases he : sub.isEmpty
    · rw [if_pos he] at h
      injection h with h
      subst h
      refine ⟨Nat.le_refl _, ?_⟩
      have hse : sub = [] := by simpa using he
      subst hse
      simp [List.isPrefixOf]
    · rw [if_neg he] at h
      cases h
  | cons c rest ih =>
    intro i j h
    unfold strIdxAux at h
    by_cases hp : sub.isPrefixOf (c :: rest) = true
    · rw [if_pos hp] at h
      injection h with h
      subst h
      exact ⟨Nat.le_refl _, by simpa [Nat.sub_self] using hp⟩
    · rw [if_neg hp] at h
      obtain ⟨hij, hpre⟩ := ih (i + 1) j h
      refine ⟨Nat.le_of_succ_le hij, ?_⟩
      have heq : j - i = (j - (i + 1)) + 1 := by omega
      rw [heq, List.drop_succ_cons]
      exact hpre

theorem strIdx_prefix {s sub : String} {idx : Nat} (h : strIdx s sub = some idx) :
    sub.data.isPrefixOf (s.data.drop idx) = true := by
  have := strIdxAux_prefix sub.data s.data 0 idx h
  simpa using this.2

theorem lowerStr_slice (s : String) (idx n : Nat) :
    lowerStr ⟨(s.data.drop idx).take n⟩ = ⟨((lowerStr s).data.drop idx).take n⟩ := by
  unfold lowerStr
  simp [List.map_take, List.map_drop]

/-- Claim C6 (amended): `stringContainsOneOf` scans the substring list
from the LAST entry to the first, so for architecture "amd64" the alias
"universal" is tried FIRST, before "64-bit", "64bit", "x86_64" and the
literal token: whenever the candidate name contains "universal"
(case-insensitively), the reported matched-architecture token is
"universal", even if a more specific alias also occurs in the name. -/
theorem archAlias_universal_checked_first :
    ∀ s : String, strContains (lowerStr s) "universal" = true →
      (stringContainsOneOf s "amd64" (getAliasesForArchitecture "amd64")).2 = true ∧
      lowerStr (stringContainsOneOf s "amd64" (getAliasesForArchitecture "amd64")).1
        = "universal" := by
  intro s hc
  unfold strContains at hc
  cases hidx : strIdx (lowerStr s) "universal" with
  | none => rw [hidx] at hc; cases hc
  | some idx =>
    have hrev : (("amd64" : String) :: getAliasesForArchitecture "amd64").reverse
        = ["universal", "64-bit", "64bit", "x86_64", "amd64"] := by decide
    have hlu : lowerStr "universal" = "universal" := by decide
    unfold stringContainsOneOf
    rw [hrev]
    simp only [containsScan, hlu, hidx]
    refine ⟨trivial, ?_⟩
    rw [lowerStr_slice]
    have hpre := strIdx_prefix hidx
    rw [List.isPrefixOf_iff_prefix, List.prefix_iff_eq_take] at hpre
    exact congrArg String.mk hpre.symm

/-- Claim C6, witness: an asset name containing only the "universal"
alias is matched and reported as "universal". -/
theorem archAlias_universal_checked_first_witness :
    (stringContainsOneOf "tool_Universal.zip" "amd64"
      (getAliasesForArchitecture "amd64")).2 = true ∧
    lowerStr (stringContainsOneOf "tool_Universal.zip" "amd64"
      (getAliasesForArchitecture "amd64")).1 = "universal" :=
  archAlias_universal_checked_first "tool_Universal.zip" (by decide)

/-- Claim C6, counterexample to the claim as stated: an asset name
containing both the specific alias "x86_64" and "universal" reports
"universal", not the specific alias, because the alias list is scanned
backwards. -/
theorem matchAsset_universal_over_specific :
    MatchAssetByOsAndArch [⟨"tool_darwin_x86_64_universal.tar.gz", "u"⟩] "darwin" "amd64"
      = (⟨"tool_darwin_x86_64_universal.tar.gz", "u"⟩, "darwin", "universal", true) ∧
    ("universal" : String) ≠ "x86_64" := by
  constructor
  · decide
  · decide

theorem matchAssetF2_eq (assets : List GithubAsset) (OS arch : String) :
    MatchAssetByOsAndArchF 2 assets OS arch =
      (match matchAssetLoop OS arch assets with
       | some (a, mOS, mArch) => (a, mOS, mArch, true)
       | none =>
         if equalFold OS "darwin" && equalFold arch "arm64" then
           MatchAssetByOsAndArchF 1 assets OS "amd64"
         else (⟨"", ""⟩, "", "", false)) := rfl

theorem matchAssetF1_eq (assets : List GithubAsset) (OS arch : String) :
    MatchAssetByOsAndArchF 1 assets OS arch =
      (match matchAssetLoop OS arch assets with
       | some (a, mOS, mArch) => (a, mOS, mArch, true)
       | none =>
         if equalFold OS "darwin" && equalFold arch "arm64" then
           MatchAssetByOsAndArchF 0 assets OS "amd64"
         else (⟨"", ""⟩, "", "", false)) := rfl

theorem matchBuildF2_eq (builds : List HashicorpBuild) (OS arch : String) :
    MatchBuildByOsAndArchF 2 builds OS arch =
      (match matchBuildLoop (lowerStr OS) (lowerStr arch) builds with
       | some b => (b, true)
       | none =>
         if lowerStr OS == "darwin" && lowerStr arch == "arm64" then
           MatchBuildByOsAndArchF 1 builds OS "amd64"
         else (⟨"", "", ""⟩, false)) := rfl

theorem matchBuildF1_eq (builds : List HashicorpBuild) (OS arch : String) :
    MatchBuildByOsAndArchF 1 builds OS arch =
      (match matchBuildLoop (lowerStr OS) (lowerStr arch) builds with
       | some b => (b, true)
       | none =>
         if lowerStr OS == "darwin" && lowerStr arch == "arm64" then
           MatchBuildByOsAndArchF 0 builds OS "amd64"
         else (⟨"", "", ""⟩, false)) := rfl

/-- Claim C8: when the target is darwin/arm64 and no asset (or build)
matches in the scan - the literal tokens and all aliases included - the
matcher retries the entire match once with architecture "amd64" and
returns exactly that retry's result (asset and matched tokens, or
found = false when the retry also finds nothing); the structured-build
matcher applies the same fallback. -/
theorem darwinArm64_fallback :
    (∀ assets : List GithubAsset,
      matchAssetLoop "darwin" "arm64" assets = none →
      MatchAssetByOsAndArch assets "darwin" "arm64" =
        MatchAssetByOsAndArch assets "darwin" "amd64") ∧
    (∀ builds : List HashicorpBuild,
      matchBuildLoop "darwin" "arm64" builds = none →
      MatchBuildByOsAndArch builds "darwin" "arm64" =
        MatchBuildByOsAndArch builds "darwin" "amd64") := by
  constructor
  · intro assets h
    unfold MatchAssetByOsAndArch
    rw [matchAssetF2_eq, h, if_pos (by decide)]
    rw [matchAssetF1_eq, matchAssetF2_eq]
    cases hm : matchAssetLoop "darwin" "amd64" assets with
    | some r =>
      obtain ⟨a, mOS, mArch⟩ := r
      rfl
    | none =>
      rw [if_neg (by decide), if_neg (by decide)]
  · intro builds h
    unfold MatchBuildByOsAndArch
    have hlos : lowerStr "darwin" = "darwin" := by decide
    have hlar : lowerStr "arm64" = "arm64" := by decide
    have hlam : lowerStr "amd64" = "amd64" := by decide
    rw [matchBuildF2_eq, hlos, hlar, h, if_pos (by decide)]
    rw [matchBuildF1_eq, matchBuildF2_eq, hlos, hlam]
    cases hm : matchBuildLoop "darwin" "amd64" builds with
    | some b => rfl
    | none =>
      rw [if_neg (by decide), if_neg (by decide)]

/-- Claim C8, witness: a macos/x86_64-named asset and a darwin/amd64
build record are found via the arm64-to-amd64 fallback. -/
theorem darwinArm64_fallback_witness :
    MatchAssetByOsAndArch [⟨"tool_macos_x86_64.zip", "u"⟩] "darwin" "arm64" =
      MatchAssetByOsAndArch [⟨"tool_macos_x86_64.zip", "u"⟩] "darwin" "amd64" ∧
    MatchBuildByOsAndArch [⟨"amd64", "darwin", "u"⟩] "darwin" "arm64" =
      MatchBuildByOsAndArch [⟨"amd64", "darwin", "u"⟩] "darwin" "amd64" :=
  ⟨darwinArm64_fallback.1 [⟨"tool_macos_x86_64.zip", "u"⟩] (by decide),
   darwinArm64_fallback.2 [⟨"amd64", "darwin", "u"⟩] (by decide)⟩

/-! ### Base-name derivation (claim C7) -/

/-- Claim C7 (amended): the current derivation
(`NameWithoutVersionAndComponents`) removes each stripping token in its
"-token" and "_token" forms and then trims a trailing version-looking
suffix via `versionRE`; when no version suffix matches it returns the
token-stripped name UNCHANGED - it has no split-on-separator fallback.
The split-on-"-"/"_" first-segment fallback exists only in the older
`GetBaseName` (src/unnamed/part_003), which in turn strips no tokens. -/
theorem nameDerivation_version_trim :
    (∀ (name : String) (comps : List String) (b : String),
      versionREGroup (stripTokens name comps) = some b →
      NameWithoutVersionAndComponents name comps = b) ∧
    (∀ (name : String) (comps : List String),
      versionREGroup (stripTokens name comps) = none →
      NameWithoutVersionAndComponents name comps = stripTokens name comps) ∧
    (∀ name : String, baseMinK [] name.data = none →
      GetBaseName name = (match firstFieldDU name.data with
                          | some f => ⟨f⟩
                          | none => name)) := by
  refine ⟨?_, ?_, ?_⟩
  · intro name comps b h
    unfold NameWithoutVersionAndComponents
    rw [h]
  · intro name comps h
    unfold NameWithoutVersionAndComponents
    rw [h]
  · intro name h
    unfold GetBaseName
    rw [h]

/-- Claim C7, witness: the test names of the repository - a version
suffix is trimmed after stripping components, and a name without digits
is returned as stripped. -/
theorem nameDerivation_version_trim_witness :
    NameWithoutVersionAndComponents "app_v1.2.3_darwin_x64.tar.gz" ["darwin", "x64"]
      = "app" ∧
    NameWithoutVersionAndComponents "app-darwin-amd64" ["darwin", "amd64"] = "app" ∧
    GetBaseName "tool-extra" = "tool" :=
  ⟨nameDerivation_version_trim.1 "app_v1.2.3_darwin_x64.tar.gz" ["darwin", "x64"]
      "app" (by decide),
   (nameDerivation_version_trim.2.1 "app-darwin-amd64" ["darwin", "amd64"]
      (by decide)).trans (by decide),
   by decide⟩

/-- Claim C7, counterexample to the claim as stated: for a name with no
version-looking suffix, the current derivation does NOT split on
"-"/"_" and return the first segment - it returns the stripped name
unchanged. -/
theorem nameDerivation_keeps_unsplit :
    NameWithoutVersionAndComponents "tool-extra" [] = "tool-extra" ∧
    ("tool-extra" : String) ≠ "tool" := by
  constructor
  · decide
  · decide

/-! ### Archive extraction (claims C5, C9) -/

/-- Claim C9: for every path and every content whose sniffed type is
none of gzip, bzip2, tar or zip - classification reads only the first
up-to-512 bytes of the content, never the file's name or extension, and
an empty file sniffs as unknown - `ExtractFile` writes nothing, returns
wasExtracted = false, and returns no error. -/
theorem extractFile_unknown_type :
    ∀ (p : String) (c : List Nat),
      fileTypeOf c ≠ "gz" → fileTypeOf c ≠ "bz2" →
      fileTypeOf c ≠ "tar" → fileTypeOf c ≠ "zip" →
      ExtractFile p c = ⟨false, [], none⟩ := by
  intro p c h1 h2 h3 h4
  unfold ExtractFile
  rw [if_neg h1, if_neg h2, if_neg h3, if_neg h4]

/-- Claim C9, witness: an empty file and a plain text file - the latter
under a name ending in ".gz", showing the name is not consulted. -/
theorem extractFile_unknown_type_witness :
    ExtractFile "/tmp/empty" [] = ⟨false, [], none⟩ ∧
    ExtractFile "/tmp/plain.gz" [104, 101, 108, 108, 111] = ⟨false, [], none⟩ :=
  ⟨extractFile_unknown_type "/tmp/empty" []
      (by decide) (by decide) (by decide) (by decide),
   extractFile_unknown_type "/tmp/plain.gz" [104, 101, 108, 108, 111]
      (by decide) (by decide) (by decide) (by decide)⟩

/-- Claim C5 (amended): whenever `ExtractFile` returns an error,
wasExtracted is false - for truncated gzip, bzip2 and zip inputs AND for
a truncated tar input; the tar branch returns exactly the tar
extractor's outcome, so the files written before the error (including a
partial final file) remain on disk with no rollback.  Concrete truncated
inputs of the other three types also yield errors. -/
theorem extractFile_error_not_extracted :
    (∀ (p : String) (c : List Nat),
      (ExtractFile p c).err.isSome = true → (ExtractFile p c).wasExtracted = false) ∧
    (∀ (p : String) (c : List Nat), fileTypeOf c = "tar" →
      (ExtractFile p c).writes = (extractTarFile c.length c (dirName p) []).1 ∧
      (ExtractFile p c).err = (extractTarFile c.length c (dirName p) []).2) ∧
    (ExtractFile "/t/a.gz" [31, 139, 8]).err.isSome = true ∧
    (ExtractFile "/t/a.bz2" [66, 90, 104]).err.isSome = true ∧
    (ExtractFile "/t/a.zip" [80, 75, 3, 4]).err.isSome = true := by
  refine ⟨?_, ?_, by decide, by decide, by decide⟩
  · intro p c
    unfold ExtractFile
    by_cases h1 : fileTypeOf c = "gz"
    · rw [if_pos h1]
      cases hg : gunzipFile c (dirName p) with
      | mk w e => cases e <;> simp
    · rw [if_neg h1]
      by_cases h2 : fileTypeOf c = "bz2"
      · rw [if_pos h2]
        cases hb : bunzip2File c p with
        | mk w e => cases e <;> simp
      · rw [if_neg h2]
        by_cases h3 : fileTypeOf c = "tar"
        · rw [if_pos h3]
          cases ht : extractTarFile c.length c (dirName p) [] with
          | mk w e => cases e <;> simp
        · rw [if_neg h3]
          by_cases h4 : fileTypeOf c = "zip"
          · rw [if_pos h4]
            cases hz : extractZipFile c (dirName p) with
            | mk w e => cases e <;> simp
          · rw [if_neg h4]
            simp
  · intro p c h
    have h1 : fileTypeOf c ≠ "gz" := by rw [h]; decide
    have h2 : fileTypeOf c ≠ "bz2" := by rw [h]; decide
    unfold ExtractFile
    rw [if_neg h1, if_neg h2, if_pos h]
    cases ht : extractTarFile c.length c (dirName p) [] with
    | mk w e => cases e <;> simp

/-- Claim C5, witness: a truncated gzip yields wasExtracted = false via
the error, and the truncated tar archive's writes are exactly the tar
extractor's partial writes. -/
theorem extractFile_error_not_extracted_witness :
    (ExtractFile "/t/x.gz" [31, 139, 8]).wasExtracted = false ∧
    (ExtractFile "/tmp/t.tar" truncatedTar).writes =
      (extractTarFile truncatedTar.length truncatedTar (dirName "/tmp/t.tar") []).1 :=
  ⟨extractFile_error_not_extracted.1 "/t/x.gz" [31, 139, 8] (by decide),
   (extractFile_error_not_extracted.2.1 "/tmp/t.tar" truncatedTar (by decide)).1⟩

/-- Claim C5, counterexample to the claim as stated: on a truncated tar
input `ExtractFile` returns an error with wasExtracted = FALSE (the
claim says true), while the partially extracted files - the complete
first entry and the truncated second one - remain on disk. -/
theorem extractFile_truncated_tar_false :
    (ExtractFile "/tmp/truncated.tar" truncatedTar).wasExtracted = false ∧
    (ExtractFile "/tmp/truncated.tar" truncatedTar).err.isSome = true ∧
    (ExtractFile "/tmp/truncated.tar" truncatedTar).writes =
      [("/tmp/file", [104, 105]), ("/tmp/file2", [1, 2, 3])] := by
  refine ⟨?_, ?_, ?_⟩ <;> decide

end Jkl
